import Mathlib

/-!
# Verification of the resumate experience-management tool

A shallow embedding of the core services of the `resumate` CLI
(draft analyzer, archive analyzer / completeness scorer, experience
repository, experience locator, migration engine, and the dynamic-question
validator), together with theorems settling the specification claims.

Strings are modelled as `List Char` (JavaScript iterates strings by code
point in `for..of`; all characters relevant here are in the BMP, where
JavaScript's UTF-16 `length` agrees with the code-point count).
JavaScript numbers are modelled as `ℚ`; the quantities manipulated by the
code (0.7, 0.9, weighted sums of small integers) are exact in binary64,
so rational arithmetic coincides with the program's float arithmetic.
-/

namespace Resumate

attribute [local semireducible] Rat.add Rat.sub Rat.mul Rat.inv

set_option maxRecDepth 8000

/-- JavaScript strings, as lists of code points. -/
abbrev JStr := List Char

/-- JSON / JavaScript values, as produced by `JSON.parse` and stored in
frontmatter maps (`Record<string, unknown>`). Objects are association
lists in key order. -/
inductive Json where
  | null : Json
  | bool (b : Bool) : Json
  | num (q : ℚ) : Json
  | str (s : JStr) : Json
  | arr (items : List Json) : Json
  | obj (fields : List (JStr × Json)) : Json

/-- JavaScript truthiness of a value (`!!v`): `undefined` is handled by
callers via `Option`; `null`, `false`, `0`, `NaN` and `""` are falsy,
objects and arrays (even empty) are truthy. -/
def jsTruthy : Json → Bool
  | .null => false
  | .bool b => b
  | .num q => decide (q ≠ 0)
  | .str s => decide (s ≠ [])
  | .arr _ => true
  | .obj _ => true

/-- Property access `o[k]` on a JavaScript object: `none` models
`undefined` (also for access on a non-object primitive, which yields
`undefined` for the values reachable here). `JSON.parse` keeps the last
duplicate key, hence the reversed lookup. -/
def jsGet (v : Json) (key : JStr) : Option Json :=
  match v with
  | .obj fields => (fields.reverse.find? (fun p => p.1 = key)).map Prod.snd
  | _ => none

/-- The whitespace class of JavaScript (`\s`, `trim`, `split(/\s+/)`),
restricted to the characters that occur in this code base. -/
def isJsWs (c : Char) : Bool :=
  c = ' ' || c = '\t' || c = '\n' || c = '\r' || c = '\x0b' || c = '\x0c'

/-- The JavaScript method `String.prototype.trim`. -/
def jsTrim (s : JStr) : JStr :=
  ((s.dropWhile isJsWs).reverse.dropWhile isJsWs).reverse

/-- ASCII lower-casing, as performed by the `i` regex flag on the ASCII
patterns used in this code base. -/
def jsLower (s : JStr) : JStr := s.map Char.toLower

/-- Does `s` start with `sub`? (`String.prototype.startsWith`.) -/
def jsStartsWith : JStr → JStr → Bool
  | _, [] => true
  | [], _ :: _ => false
  | c :: cs, d :: ds => c = d && jsStartsWith cs ds

/-- The call `s.includes(sub)` (substring containment). -/
def jsIncludes : JStr → JStr → Bool
  | s, sub =>
    if jsStartsWith s sub then true
    else
      match s with
      | [] => false
      | _ :: rest => jsIncludes rest sub

/-- JavaScript word characters `\w` = `[A-Za-z0-9_]`. -/
def isWordChar (c : Char) : Bool :=
  (('a' ≤ c && c ≤ 'z') || ('A' ≤ c && c ≤ 'Z') || ('0' ≤ c && c ≤ '9') || c = '_')

/-- ASCII digit class `\d`. -/
def isDigitChar (c : Char) : Bool := '0' ≤ c && c ≤ '9'

/-!
## A small regex engine

The analyzers are driven by tables of JavaScript regular expressions.
The fragment they use is: literal characters, character classes, `.`,
alternation, concatenation, greedy `*` `+` `?` `{n}` `{1,2}`, and the
word-boundary assertion `\b`. We embed that fragment directly.

`mrun` returns, in JavaScript backtracking priority order (alternation
left first, `*` greedy), the list of states reachable after matching a
regex at the current position. A state is the character just before the
remaining input (needed for `\b`) and the remaining input. Kleene-star
iterations are required to consume input, which does not change the
matched language and makes the recursion terminate.
-/

/-- Regex abstract syntax for the fragment used by the code base. -/
inductive RE where
  | eps : RE
  | cls (p : Char → Bool) : RE
  | cat (a b : RE) : RE
  | alt (a b : RE) : RE
  | star (a : RE) : RE
  | wb : RE

/-- The word-boundary test `\b` between `prev` and the head of `s`. -/
def atWordBoundary (prev : Option Char) (s : JStr) : Bool :=
  let l := match prev with | none => false | some c => isWordChar c
  let r := match s with | [] => false | c :: _ => isWordChar c
  l != r

/-- Iterate a single-step matcher (one Kleene iteration, which must
consume at least one character) up to `fuel` times, greedily: deeper
iterations are listed before stopping. -/
def starRun (step : Option Char → JStr → List (Option Char × JStr)) :
    Nat → Option Char → JStr → List (Option Char × JStr)
  | 0, prev, s => [(prev, s)]
  | fuel + 1, prev, s =>
      (((step prev s).filter (fun pr => pr.2.length < s.length)).flatMap
        (fun pr => starRun step fuel pr.1 pr.2)) ++ [(prev, s)]

/-- All end states of matching `r` at the start of `s` (with left context
`prev`), in JavaScript priority order. -/
def mrun : RE → Option Char → JStr → List (Option Char × JStr)
  | .eps, prev, s => [(prev, s)]
  | .cls _, _, [] => []
  | .cls p, _, c :: rest => if p c then [(some c, rest)] else []
  | .alt a b, prev, s => mrun a prev s ++ mrun b prev s
  | .cat a b, prev, s => (mrun a prev s).flatMap (fun pr => mrun b pr.1 pr.2)
  | .wb, prev, s => if atWordBoundary prev s then [(prev, s)] else []
  | .star a, prev, s => starRun (fun p t => mrun a p t) s.length prev s

/-- All positions of a string: pairs of the preceding character and the
suffix starting there, left to right. -/
def suffixes : Option Char → JStr → List (Option Char × JStr)
  | prev, [] => [(prev, [])]
  | prev, c :: rest => (prev, c :: rest) :: suffixes (some c) rest

/-- The call `regex.test(s)`: does a match exist anywhere in `s`? -/
def reTest (r : RE) (s : JStr) : Bool :=
  (suffixes none s).any (fun pr => !(mrun r pr.1 pr.2).isEmpty)

/-- Whole-string match (for anchored patterns of the form `^...$`). -/
def reFullMatch (r : RE) (s : JStr) : Bool :=
  (mrun r none s).any (fun pr => pr.2.isEmpty)

/-- Length of the longest prefix match preferred by JavaScript for an
anchored pattern (`^...`), if any: used for `replace(/^.../, '')`. -/
def reLeadLen (r : RE) (s : JStr) : Option Nat :=
  match mrun r none s with
  | pr :: _ => some (s.length - pr.2.length)
  | [] => none

/-- Scan left to right for the first position where `r` matches,
returning the position index and the length of the preferred match. -/
def reFirstMatchAux (r : RE) : Nat → Option Char → JStr → Option (Nat × Nat)
  | idx, prev, s =>
    match mrun r prev s with
    | pr :: _ => some (idx, s.length - pr.2.length)
    | [] =>
      match s with
      | [] => none
      | c :: rest => reFirstMatchAux r (idx + 1) (some c) rest

/-- Position and length of the first (leftmost, priority) match of `r`
in `s`, as found by `s.match(r)`. -/
def reFirstMatch (r : RE) (s : JStr) : Option (Nat × Nat) :=
  reFirstMatchAux r 0 none s

/-- A JavaScript regex literal: the syntax tree plus its `i` flag. -/
structure JsRegex where
  re : RE
  ignoreCase : Bool := false

/-- The call `p.test(s)`, honouring the `i` flag by ASCII case folding. -/
def testR (p : JsRegex) (s : JStr) : Bool :=
  reTest p.re (if p.ignoreCase then jsLower s else s)

/-- First-match position/length of `p` in `s` (case folding preserves
positions and lengths, so indices refer to the original string). -/
def firstMatchR (p : JsRegex) (s : JStr) : Option (Nat × Nat) :=
  reFirstMatch p.re (if p.ignoreCase then jsLower s else s)

/-! Combinators used to transcribe the concrete patterns. -/

/-- A single literal character. -/
def rchar (c : Char) : RE := .cls (fun x => x = c)

/-- A literal string. -/
def rlit (s : String) : RE := s.data.foldr (fun c acc => RE.cat (rchar c) acc) .eps

/-- Concatenation of a list of regexes. -/
def rseq (rs : List RE) : RE := rs.foldr .cat .eps

/-- Alternation of a list of regexes, preserving left-to-right priority. -/
def ralts : List RE → RE
  | [] => .cls (fun _ => false)
  | r :: rest => rest.foldl .alt r

/-- Alternation of literal words. -/
def rwords (ws : List String) : RE := ralts (ws.map rlit)

/-- The class `\d`. -/
def rdigit : RE := .cls isDigitChar

/-- The class `\s`. -/
def rws : RE := .cls isJsWs

/-- The class `\w`. -/
def rword : RE := .cls isWordChar

/-- The wildcard `.` (any character but a line terminator). -/
def rdot : RE := .cls (fun c => !(c = '\n' || c = '\r' || c.toNat = 0x2028 || c.toNat = 0x2029))

/-- Greedy `r?`. -/
def ropt (r : RE) : RE := .alt r .eps

/-- Greedy `r+`. -/
def rplus (r : RE) : RE := .cat r (.star r)

/-- Repetition `r{n}`. -/
def rrep (r : RE) (n : Nat) : RE := rseq (List.replicate n r)

/-- The pattern `\d{4}`. -/
def rdig4 : RE := rrep rdigit 4

/-- The pattern `\d{2}`. -/
def rdig2 : RE := rrep rdigit 2

/-- Greedy `\d{1,2}`. -/
def rdig12 : RE := .cat rdigit (ropt rdigit)

/-- The pattern `\s*`. -/
def rwsStar : RE := .star rws

/-- The pattern `\s+`. -/
def rwsPlus : RE := rplus rws

/-!
## JSON serialization (`JSON.stringify`)

Used only to turn non-string frontmatter/achievement values into text for
evidence extraction and pattern testing. Integral numbers render exactly;
the JavaScript float formatting of non-integral numbers is not modelled
(no claim depends on it).
-/

/-- Decimal rendering of a natural number. -/
def natDecimal (n : Nat) : JStr := Nat.toDigits 10 n

/-- Rendering of a rational (exact for integers). -/
def qDecimal (q : ℚ) : JStr :=
  (if q < 0 then ['-'] else []) ++ natDecimal q.num.natAbs ++
    (if q.den = 1 then [] else '/' :: natDecimal q.den)

/-- JSON string escaping (quotes and backslashes). -/
def escapeJson (s : JStr) : JStr :=
  s.flatMap (fun c => if c = '"' || c = '\\' then ['\\', c] else [c])

mutual

/-- The function `JSON.stringify`. -/
def jsonStringify : Json → JStr
  | .null => "null".data
  | .bool true => "true".data
  | .bool false => "false".data
  | .num q => qDecimal q
  | .str s => '"' :: (escapeJson s ++ ['"'])
  | .arr items => '\x5b' :: (stringifyItems items ++ ['\x5d'])
  | .obj fields => '\x7b' :: (stringifyFields fields ++ ['\x7d'])

/-- Comma-separated serialization of array items. -/
def stringifyItems : List Json → JStr
  | [] => []
  | [x] => jsonStringify x
  | x :: y :: rest => jsonStringify x ++ ',' :: stringifyItems (y :: rest)

/-- Comma-separated serialization of object fields. -/
def stringifyFields : List (JStr × Json) → JStr
  | [] => []
  | [(k, v)] => ('"' :: (escapeJson k ++ ['"', ':'])) ++ jsonStringify v
  | (k, v) :: f :: rest =>
      ('"' :: (escapeJson k ++ ['"', ':'])) ++ jsonStringify v ++ ',' :: stringifyFields (f :: rest)

end

/-!
## Binary64 rounding of the completeness score

`archive-analyzer.ts` computes `Math.round((weightedScore / TOTAL_WEIGHT) * 100)`
in IEEE binary64. Every weighted partial sum reachable in that code is a
multiple of 1/2 in `[0, 100]` and hence exactly representable, and each
product `weight * qualityScore` rounds to the exact decimal value
(`20*0.7 = 14`, `25*0.7 = 17.5`, `15*0.7 = 10.5` hold in binary64), so
the only inexact steps are the division by 100 and the multiplication by
100. We model those two steps with exact round-to-nearest, ties-to-even
at 53 significant bits. -/

/-- Rational division, implemented with `Rat.divInt` so that the kernel
can evaluate it (`Rat.inv` does not reduce in the kernel); equal to `/`
by `qdiv_eq_div` below. -/
def qdiv (a b : ℚ) : ℚ := Rat.divInt (a.num * b.den) (a.den * b.num)

/-- Power `2 ^ e` for an integer exponent, kernel-evaluable. -/
def pow2z (e : ℤ) : ℚ :=
  if 0 ≤ e then ((2 ^ e.toNat : ℕ) : ℚ) else Rat.divInt 1 (2 ^ (-e).toNat)

/-- JavaScript `Math.round` (half toward `+∞`), kernel-evaluable; equal to Mathlib's
`round` by `jsMathRound_eq_round` below. -/
def jsMathRound (x : ℚ) : ℤ := Rat.floor (x + Rat.divInt 1 2)

/-- Floor of log2, by structural recursion on a fuel bound (so that the
kernel can evaluate it). -/
def natLog2Aux : Nat → Nat → Nat
  | 0, _ => 0
  | fuel + 1, n => if n ≤ 1 then 0 else natLog2Aux fuel (n / 2) + 1

/-- Floor of log2 of a positive natural. -/
def natLog2 (n : Nat) : Nat := natLog2Aux n n

/-- The greatest `e` with `2 ^ e ≤ a`, for positive rational `a`. -/
def qLog2 (a : ℚ) : ℤ :=
  let e0 : ℤ := (natLog2 a.num.natAbs : ℤ) - (natLog2 a.den : ℤ)
  if pow2z (e0 + 1) ≤ a then e0 + 1
  else if pow2z e0 ≤ a then e0
  else e0 - 1

/-- Round a rational to an integer, ties to even. -/
def rndTiesEven (x : ℚ) : ℤ :=
  let f := Rat.floor x
  let r := x - (f : ℚ)
  if r < Rat.divInt 1 2 then f
  else if Rat.divInt 1 2 < r then f + 1
  else if f % 2 = 0 then f else f + 1

/-- Round a rational to the nearest binary64 value (normal range;
overflow and subnormals are outside the range exercised here). -/
def rnd53 (q : ℚ) : ℚ :=
  if q = 0 then 0
  else
    let s : ℚ := if q < 0 then -1 else 1
    let a := |q|
    let e : ℤ := qLog2 a
    let scale : ℚ := pow2z (e - 52)
    s * (rndTiesEven (qdiv a scale) : ℚ) * scale

/-- The computation `Math.round((w / 100) * 100)` in binary64, for an exactly
representable `w` (`Math.round` rounds halves toward `+∞`, as does
Mathlib's `round`). -/
def jsRoundScaled (w : ℚ) : ℤ :=
  jsMathRound (rnd53 (rnd53 (qdiv w 100) * 100))

/-!
## Archive analyzer: `calculateCompleteness` (`archive-analyzer.ts`)
-/

/-- The fixed field weight table `FIELD_WEIGHTS`. -/
def weightTitle : ℚ := 10

/-- Weight of `duration`. -/
def weightDuration : ℚ := 20

/-- Weight of `achievements`. -/
def weightAchievements : ℚ := 25

/-- Weight of `technologies`. -/
def weightTechnologies : ℚ := 15

/-- Weight of `learnings`. -/
def weightLearnings : ℚ := 15

/-- Weight of `project`. -/
def weightProject : ℚ := 10

/-- Weight of `reflections`. -/
def weightReflections : ℚ := 5

/-- The constant `TOTAL_WEIGHT`: the sum of the weight table values (= 100). -/
def totalWeight : ℚ :=
  weightTitle + weightDuration + weightAchievements + weightTechnologies +
    weightLearnings + weightProject + weightReflections

/-- Per-field entry of the returned breakdown. -/
structure FieldCompleteness where
  present : Bool
  weight : ℚ
  qualityScore : ℚ
deriving DecidableEq

/-- The breakdown record keyed by the seven weighted fields. -/
structure CompletenessBreakdown where
  title : FieldCompleteness
  duration : FieldCompleteness
  achievements : FieldCompleteness
  technologies : FieldCompleteness
  learnings : FieldCompleteness
  project : FieldCompleteness
  reflections : FieldCompleteness
deriving DecidableEq

/-- The result of `calculateCompleteness`. -/
structure CompletenessAssessment where
  score : ℤ
  breakdown : CompletenessBreakdown
  suggestions : List JStr
deriving DecidableEq

/-- The `CompletenessInput` record; `none` models an absent (`undefined`)
field. -/
structure CompletenessInput where
  title : Option JStr := none
  duration : Option Json := none
  achievements : Option (List Json) := none
  technologies : Option (List Json) := none
  learnings : Option JStr := none
  project : Option JStr := none
  reflections : Option JStr := none

/-- The idiom `!!x && x.trim().length > 0` on an optional string. -/
def jsStrPresent : Option JStr → Bool
  | none => false
  | some t => decide (t ≠ []) && decide (0 < (jsTrim t).length)

/-- Truthiness of an optional value (`undefined` is falsy). -/
def jsOptTruthy : Option Json → Bool
  | none => false
  | some v => jsTruthy v

/-- The quantitative-achievement pattern `/\d+\s*%|\d+배|\d+\s*times/i`. -/
def quantitativeRe : JsRegex :=
  ⟨ralts [rseq [rplus rdigit, rwsStar, rchar '%'],
          rseq [rplus rdigit, rchar '배'],
          rseq [rplus rdigit, rwsStar, rlit "times"]], true⟩

/-- Suggestion string pushed when `duration` is absent. -/
def sugDuration : JStr :=
  "기간 정보를 추가하면 이력서에서 경험의 맥락을 명확히 전달할 수 있습니다".data

/-- Suggestion string pushed when achievements are present but none is
quantitative. -/
def sugAchQuant : JStr :=
  "성과에 구체적인 수치를 추가하면 이력서 작성 시 더 효과적입니다 (예: \"50% 개선\", \"3배 증가\")".data

/-- Suggestion string pushed when `achievements` is absent. -/
def sugAchievements : JStr :=
  "주요 성과나 결과를 추가하면 이력서의 설득력이 높아집니다".data

/-- Suggestion string pushed when `technologies` is absent. -/
def sugTechnologies : JStr :=
  "사용한 기술 스택을 명시하면 기술 역량을 효과적으로 어필할 수 있습니다".data

/-- Suggestion string pushed when `learnings` is absent. -/
def sugLearnings : JStr :=
  "배운 점을 기록하면 성장 과정을 보여줄 수 있습니다".data

/-- Suggestion string pushed when `project` is absent. -/
def sugProject : JStr :=
  "프로젝트나 회사 정보를 추가하면 경험의 맥락이 명확해집니다".data

/-- The weighted score accumulated by `calculateCompleteness` (the
variable `weightedScore` of the source, factored out so the theorems can
speak about it). -/
def weightedScoreOf (data : CompletenessInput) : ℚ :=
  let hasTitle := jsStrPresent data.title
  let hasDuration := jsOptTruthy data.duration
  let durationQuality : ℚ :=
    let base : ℚ := if hasDuration then Rat.divInt 7 10 else 0
    match data.duration with
    | some (Json.obj fs) =>
        if hasDuration && jsOptTruthy (jsGet (.obj fs) "start".data) &&
            jsOptTruthy (jsGet (.obj fs) "end".data) then 1 else base
    | _ => base
  let hasAchievements := match data.achievements with
    | none => false
    | some l => decide (0 < l.length)
  let achTexts := (data.achievements.getD []).map
    (fun a => match a with | Json.str s => s | v => jsonStringify v)
  let hasQuantitative := achTexts.any (fun a => testR quantitativeRe a)
  let achievementQuality : ℚ :=
    if hasAchievements then (if hasQuantitative then 1 else Rat.divInt 7 10) else 0
  let hasTech := match data.technologies with
    | none => false
    | some l => decide (0 < l.length)
  let techQuality : ℚ :=
    if hasTech then (if 3 < (data.technologies.getD []).length then 1 else Rat.divInt 7 10) else 0
  let hasLearnings := jsStrPresent data.learnings
  let learningsQuality : ℚ :=
    if hasLearnings then
      (if 50 < (jsTrim (data.learnings.getD [])).length then 1 else Rat.divInt 7 10)
    else 0
  let hasProject := jsStrPresent data.project
  let hasReflections := jsStrPresent data.reflections
  (if hasTitle then weightTitle else 0)
  + (if hasDuration then weightDuration * durationQuality else 0)
  + (if hasAchievements then weightAchievements * achievementQuality else 0)
  + (if hasTech then weightTechnologies * techQuality else 0)
  + (if hasLearnings then weightLearnings * learningsQuality else 0)
  + (if hasProject then weightProject else 0)
  + (if hasReflections then weightReflections else 0)

/-- The function `calculateCompleteness` from `archive-analyzer.ts`, line by line.
Note that an absent `title` or `reflections` pushes no suggestion, and
that the `learnings` length bonus tests the trimmed string. -/
def calculateCompleteness (data : CompletenessInput) : CompletenessAssessment :=
  let hasTitle := jsStrPresent data.title
  let hasDuration := jsOptTruthy data.duration
  let durationQuality : ℚ :=
    let base : ℚ := if hasDuration then Rat.divInt 7 10 else 0
    match data.duration with
    | some (Json.obj fs) =>
        if hasDuration && jsOptTruthy (jsGet (.obj fs) "start".data) &&
            jsOptTruthy (jsGet (.obj fs) "end".data) then 1 else base
    | _ => base
  let hasAchievements := match data.achievements with
    | none => false
    | some l => decide (0 < l.length)
  let achTexts := (data.achievements.getD []).map
    (fun a => match a with | Json.str s => s | v => jsonStringify v)
  let hasQuantitative := achTexts.any (fun a => testR quantitativeRe a)
  let achievementQuality : ℚ :=
    if hasAchievements then (if hasQuantitative then 1 else Rat.divInt 7 10) else 0
  let hasTech := match data.technologies with
    | none => false
    | some l => decide (0 < l.length)
  let techQuality : ℚ :=
    if hasTech then (if 3 < (data.technologies.getD []).length then 1 else Rat.divInt 7 10) else 0
  let hasLearnings := jsStrPresent data.learnings
  let learningsQuality : ℚ :=
    if hasLearnings then
      (if 50 < (jsTrim (data.learnings.getD [])).length then 1 else Rat.divInt 7 10)
    else 0
  let hasProject := jsStrPresent data.project
  let hasReflections := jsStrPresent data.reflections
  { score := jsRoundScaled (weightedScoreOf data)
    breakdown :=
      { title := ⟨hasTitle, weightTitle, if hasTitle then 1 else 0⟩
        duration := ⟨hasDuration, weightDuration, durationQuality⟩
        achievements := ⟨hasAchievements, weightAchievements, achievementQuality⟩
        technologies := ⟨hasTech, weightTechnologies, techQuality⟩
        learnings := ⟨hasLearnings, weightLearnings, learningsQuality⟩
        project := ⟨hasProject, weightProject, if hasProject then 1 else 0⟩
        reflections := ⟨hasReflections, weightReflections, if hasReflections then 1 else 0⟩ }
    suggestions :=
      (if !hasDuration then [sugDuration] else [])
      ++ (if hasAchievements && !hasQuantitative then [sugAchQuant] else [])
      ++ (if !hasAchievements then [sugAchievements] else [])
      ++ (if !hasTech then [sugTechnologies] else [])
      ++ (if !hasLearnings then [sugLearnings] else [])
      ++ (if !hasProject then [sugProject] else []) }

/-!
## Draft analyzer (`draft-analyzer.ts`)
-/

/-- The language classification returned by `detectLanguage`. -/
inductive Language where
  | korean : Language
  | english : Language
  | mixed : Language
deriving DecidableEq

/-- Korean Unicode ranges: Hangul syllables (AC00-D7AF) and Jamo
(1100-11FF, 3130-318F), from `isKoreanChar`. -/
def isKoreanChar (c : Char) : Bool :=
  (0xAC00 ≤ c.toNat && c.toNat ≤ 0xD7AF) ||
  (0x1100 ≤ c.toNat && c.toNat ≤ 0x11FF) ||
  (0x3130 ≤ c.toNat && c.toNat ≤ 0x318F)

/-- ASCII letter ranges (0x41-0x5A, 0x61-0x7A), from `isLatinChar`. -/
def isLatinChar (c : Char) : Bool :=
  (0x41 ≤ c.toNat && c.toNat ≤ 0x5A) || (0x61 ≤ c.toNat && c.toNat ≤ 0x7A)

/-- The function `detectLanguage`: counts Hangul-range versus ASCII-letter
characters (each character counted in at most one bucket, Korean first),
then classifies by the Korean ratio. The float division of the source is
modelled exactly in `ℚ`; for the character counts reachable from real
strings the float and rational comparisons agree. -/
def detectLanguage (text : JStr) : Language :=
  let koreanCount := (text.filter isKoreanChar).length
  let latinCount := (text.filter (fun c => !isKoreanChar c && isLatinChar c)).length
  let total := koreanCount + latinCount
  if total = 0 then .english
  else
    let kShare : ℚ := Rat.divInt (koreanCount : Int) (total : Int)
    if Rat.divInt 1 2 < kShare then .korean
    else if kShare < Rat.divInt 1 5 then .english
    else .mixed

/-- The table `DURATION_PATTERNS`. -/
def durationPatterns : List JsRegex :=
  [⟨rseq [rdig4, rchar '년', rwsStar, rdig12, rchar '월'], false⟩,
   ⟨rseq [rdig4, rwsStar, RE.cls (fun c => c = '-' || c = '~'), rwsStar, rdig4], false⟩,
   ⟨rseq [rdig12, rchar '월', rwsStar, rlit "부터"], false⟩,
   ⟨rseq [rlit "부터", rwsStar, RE.star rdot, rlit "까지"], false⟩,
   ⟨rseq [rlit "from", rwsPlus, rplus rword, rwsPlus, rdig4], true⟩,
   ⟨rseq [rdig4, rchar '-', rdig2, ropt (rseq [rchar '-', rdig2])], false⟩,
   ⟨rwords ["january", "february", "march", "april", "may", "june", "july",
            "august", "september", "october", "november", "december"], true⟩,
   ⟨rseq [rplus rdigit, rwsStar,
          ralts [rseq [rlit "month", ropt (rchar 's')],
                 rseq [rlit "year", ropt (rchar 's')],
                 rseq [rlit "week", ropt (rchar 's')]]], true⟩,
   ⟨rseq [rplus rdigit, rlit "개월"], false⟩]

/-- The table `ACHIEVEMENTS_PATTERNS`. -/
def achievementsPatterns : List JsRegex :=
  [⟨rseq [rplus rdigit, rwsStar, rchar '%'], false⟩,
   ⟨rwords ["감소", "증가", "향상", "개선", "달성", "절감"], false⟩,
   ⟨ralts (["reduce", "improve", "increase", "achieve", "decrease"].map
      (fun w => rseq [rlit w, ropt (rchar 'd'), rws, RE.star rdot, rdigit])), true⟩,
   ⟨rwords ["성과", "결과", "매출", "수익", "효율"], false⟩,
   ⟨rseq [rplus rdigit, rwsStar, ralts [rlit "배", rlit "times", rlit "x"], rws], true⟩,
   ⟨rseq [rplus rdigit, rwsStar, rwords ["만", "억", "천"]], false⟩]

/-- The table `LEARNINGS_PATTERNS`. -/
def learningsPatterns : List JsRegex :=
  [⟨rwords ["배운", "배웠", "깨달", "교훈", "학습"], false⟩,
   ⟨rwords ["learn", "lesson", "realiz", "understand", "insight"], true⟩,
   ⟨rwords ["중요성", "필요성"], false⟩,
   ⟨rseq [rlit "통해", rwsStar, RE.star rdot, ralts [rlit "알게", rlit "깨닫"]], false⟩]

/-- The table `PROJECT_PATTERNS`. -/
def projectPatterns : List JsRegex :=
  [⟨rwords ["프로젝트", "회사", "기업", "팀", "부서"], false⟩,
   ⟨ralts [rlit "project", rlit "company", rlit "team", rlit "organization",
           rlit "department", rlit "corp", rseq [rlit "inc", RE.wb]], true⟩,
   ⟨rseq [rlit "에서", rwsStar, rwords ["근무", "일", "개발", "진행"]], false⟩]

/-- The table `TECHNOLOGIES_PATTERNS`. -/
def technologiesPatterns : List JsRegex :=
  [⟨rwords ["react", "vue", "angular", "node", "python", "java", "typescript",
            "javascript", "go", "rust", "swift", "kotlin"], true⟩,
   ⟨rwords ["docker", "kubernetes", "aws", "gcp", "azure", "redis", "mongodb",
            "postgresql", "mysql"], true⟩,
   ⟨rwords ["html", "css", "sass", "webpack", "vite", "next", "nuxt", "express",
            "fastapi", "django", "spring"], true⟩,
   ⟨ralts [rlit "git", rlit "jenkins", rlit "ci/cd", rlit "terraform",
           rlit "graphql", rseq [rlit "rest", rwsStar, rlit "api"]], true⟩]

/-- The table `REFLECTIONS_PATTERNS`. -/
def reflectionsPatterns : List JsRegex :=
  [⟨rwords ["느꼈", "느낌", "소감", "의미있", "보람", "뿌듯", "자부심"], false⟩,
   ⟨rwords ["앞으로", "향후", "계획", "다음에", "도전"], false⟩,
   ⟨ralts [rlit "feel", rlit "felt", rlit "proud", rlit "meaningful",
           rlit "rewarding", rseq [rlit "plan", rwsPlus, rlit "to"],
           rlit "future", rseq [rlit "going", rwsPlus, rlit "forward"]], true⟩,
   ⟨ralts [rlit "reflect", rseq [rlit "looking", rwsPlus, rlit "back"]], true⟩]

/-- The table `FIELD_PATTERNS` (field name to ordered pattern list). -/
def fieldPatterns : List (JStr × List JsRegex) :=
  [("duration".data, durationPatterns),
   ("achievements".data, achievementsPatterns),
   ("learnings".data, learningsPatterns),
   ("project".data, projectPatterns),
   ("technologies".data, technologiesPatterns),
   ("reflections".data, reflectionsPatterns)]

/-- The list `CORE_FIELDS`, in source order. -/
def coreFields : List JStr :=
  ["duration".data, "achievements".data, "learnings".data, "project".data,
   "technologies".data, "reflections".data]

/-- Frontmatter: a parsed YAML/JSON object, one value per key. -/
abbrev Frontmatter := List (JStr × Json)

/-- Property access on a frontmatter object (keys are unique). -/
def fmLookup (fm : Frontmatter) (key : JStr) : Option Json :=
  (fm.find? (fun p => p.1 = key)).map Prod.snd

/-- The table `FRONTMATTER_FIELD_MAP` (field to frontmatter aliases). -/
def frontmatterFieldMap : List (JStr × List JStr) :=
  [("duration".data, ["duration".data, "date".data, "start_date".data, "end_date".data, "period".data]),
   ("achievements".data, ["achievements".data, "results".data, "outcomes".data]),
   ("learnings".data, ["learnings".data, "lessons".data]),
   ("project".data, ["project".data, "company".data, "organization".data, "team".data]),
   ("technologies".data, ["technologies".data, "tech".data, "tools".data, "stack".data]),
   ("reflections".data, ["reflections".data, "notes".data, "thoughts".data])]

/-- The check `value !== undefined && value !== null && value !== ''`
(the `undefined` case is handled by the caller via `Option`). -/
def fmValuePresent : Json → Bool
  | .null => false
  | .str [] => false
  | _ => true

/-- The constant `CONFIDENCE_THRESHOLD` (0.5). -/
def confidenceThreshold : ℚ := Rat.divInt 1 2

/-- One field detection result. -/
structure FieldDetection where
  field : JStr
  confidence : ℚ
  evidence : JStr
deriving DecidableEq

/-- The function `extractEvidence`: 10 characters of context on both
sides of the first match, trimmed (`match.index` is always present for a
successful match, so the `?? 0` fallback is not taken). -/
def extractEvidence (content : JStr) (p : JsRegex) : JStr :=
  match firstMatchR p content with
  | none => []
  | some (idx, len) =>
      let start := idx - 10
      let stop := min content.length (idx + len + 10)
      jsTrim ((content.drop start).take (stop - start))

/-- The frontmatter scan of `detectField`: the value of the first known
alias of the field that is present with a non-empty value. -/
def fmFirstPresent (field : JStr) (fm : Frontmatter) : Option Json :=
  (((frontmatterFieldMap.find? (fun p => p.1 = field)).map Prod.snd).getD []).findSome?
    (fun key =>
      match fmLookup fm key with
      | some v => if fmValuePresent v then some v else none
      | none => none)

/-- The pattern table of a field (empty for an unknown field). -/
def fieldPatternsOf (field : JStr) : List JsRegex :=
  ((fieldPatterns.find? (fun p => p.1 = field)).map Prod.snd).getD []

/-- The accumulator loop of `detectField` over the field's patterns: the
best confidence seen with its evidence. -/
def bestPatternFold (content : JStr) (acc : ℚ × JStr) (pats : List JsRegex) : ℚ × JStr :=
  pats.foldl (fun acc p =>
    if testR p content then
      (if acc.1 < Rat.divInt 7 10 then (Rat.divInt 7 10, extractEvidence content p) else acc)
    else acc) acc

/-- The function `detectField`: frontmatter aliases first (confidence
0.9, evidence from the value, truncated to 50 characters), then the body
pattern table (confidence 0.7, evidence from the first matching
pattern), else no detection. -/
def detectField (field : JStr) (content : JStr) (fm : Frontmatter) :
    Option FieldDetection :=
  match fmFirstPresent field fm with
  | some v =>
      let evidence := match v with | Json.str s => s | v2 => jsonStringify v2
      some ⟨field, Rat.divInt 9 10, evidence.take 50⟩
  | none =>
    match (fieldPatterns.find? (fun p => p.1 = field)).map Prod.snd with
    | none => none
    | some patterns =>
        if confidenceThreshold ≤ (bestPatternFold content ((0 : ℚ), ([] : JStr)) patterns).1 then
          some ⟨field, (bestPatternFold content ((0 : ℚ), ([] : JStr)) patterns).1,
                (bestPatternFold content ((0 : ℚ), ([] : JStr)) patterns).2⟩
        else none

/-- The experience type classification. -/
inductive ExperienceType where
  | technicalProject : ExperienceType
  | leadership : ExperienceType
  | learning : ExperienceType
  | job : ExperienceType
  | general : ExperienceType
deriving DecidableEq

/-- Count successive non-overlapping matches, as a global (`g`-flag)
`match` does: at each position take the preferred match if any, advance
past it (one character for an empty match), else advance one character.
Fuel is the string length plus one, which is enough for the whole scan. -/
def countG (r : RE) : Nat → Option Char → JStr → Nat
  | 0, _, _ => 0
  | fuel + 1, prev, s =>
    match mrun r prev s with
    | pr :: _ =>
        if s.length - pr.2.length = 0 then
          match s with
          | [] => 1
          | c :: rest => 1 + countG r fuel (some c) rest
        else 1 + countG r fuel pr.1 pr.2
    | [] =>
        match s with
        | [] => 0
        | c :: rest => countG r fuel (some c) rest

/-- Number of matches found by `content.match(new RegExp(src, flags + 'g'))`. -/
def countMatches (p : JsRegex) (s : JStr) : Nat :=
  let t := if p.ignoreCase then jsLower s else s
  countG p.re (t.length + 1) none t

/-- The table `EXPERIENCE_TYPE_KEYWORDS`, in enumeration order. -/
def experienceTypeKeywords : List (ExperienceType × List JsRegex) :=
  [(.technicalProject,
    [⟨rwords ["architect", "deploy", "api", "microservice", "database", "backend",
              "frontend", "fullstack", "devops", "ci/cd"], true⟩,
     ⟨rwords ["아키텍처", "배포", "마이크로서비스", "데이터베이스", "파이프라인"], false⟩,
     ⟨rwords ["implement", "develop", "build", "code", "debug", "refactor", "optimize"], true⟩,
     ⟨rwords ["구현", "개발", "빌드", "코딩", "리팩토링", "최적화"], false⟩,
     ⟨rwords ["docker", "kubernetes", "aws", "gcp", "terraform"], true⟩]),
   (.leadership,
    [⟨rwords ["manag", "lead", "mentor", "hire", "stakeholder", "okr", "kpi", "budget"], true⟩,
     ⟨rwords ["관리", "이끌", "멘토", "채용", "이해관계자", "목표"], false⟩,
     ⟨ralts [rseq [rlit "team", rwsStar, rwords ["of", "size", "member"]],
             rseq [rlit "direct", rwsStar, rlit "report"],
             rlit "department", rlit "division"], true⟩,
     ⟨ralts [rseq [rlit "팀", RE.star rdot, rlit "이끌"],
             rlit "부서", rlit "조직", rlit "리더"], false⟩]),
   (.learning,
    [⟨rwords ["course", "certificate", "certif", "bootcamp", "tutorial",
              "workshop", "study", "training"], true⟩,
     ⟨rwords ["강좌", "자격증", "수강", "부트캠프", "튜토리얼", "워크숍", "학습", "교육"], false⟩,
     ⟨ralts [rlit "learn", rseq [rlit "complet", RE.star rdot, rlit "course"],
             rseq [rlit "earn", RE.star rdot, rlit "certif"]], true⟩]),
   (.job,
    [⟨ralts [rseq [rlit "join", RE.star rdot, rlit "company"], rlit "position",
             rseq [rlit "role", rwsStar, rlit "as"], rlit "responsibilit",
             rlit "department", rlit "senior", rlit "junior", rlit "intern"], true⟩,
     ⟨rwords ["입사", "직무", "역할", "담당", "부서", "시니어", "주니어", "인턴"], false⟩])]

/-- The constant `EXPERIENCE_TYPE_THRESHOLD` (2). -/
def experienceTypeThreshold : Nat := 2

/-- The function `detectExperienceType`: total global-match counts per
type; the first type strictly exceeding the best-so-far and meeting the
threshold wins; otherwise GENERAL. -/
def detectExperienceType (content : JStr) : ExperienceType :=
  let scores := experienceTypeKeywords.map (fun p =>
    (p.1, p.2.foldl (fun acc pat => acc + countMatches pat content) 0))
  let best := scores.foldl (fun (acc : ExperienceType × Nat) p =>
    if acc.2 < p.2 && experienceTypeThreshold ≤ p.2 then p else acc)
    (ExperienceType.general, 0)
  best.1

/-- The result record of `analyzeDraft`. -/
structure DraftAnalysis where
  presentFields : List FieldDetection
  missingFields : List JStr
  experienceType : ExperienceType
  language : Language
  draftContent : JStr
  frontmatter : Frontmatter
  isSufficient : Bool

/-- The function `analyzeDraft`: detect each core field in order; a
detection with confidence at or above the threshold goes to
`presentFields`, otherwise the field name goes to `missingFields`;
`isSufficient` iff nothing is missing. -/
def analyzeDraft (content : JStr) (fm : Frontmatter) : DraftAnalysis :=
  let step := coreFields.foldl (fun (acc : List FieldDetection × List JStr) field =>
    match detectField field content fm with
    | some d =>
        if confidenceThreshold ≤ d.confidence then (acc.1 ++ [d], acc.2)
        else (acc.1, acc.2 ++ [field])
    | none => (acc.1, acc.2 ++ [field])) ([], [])
  { presentFields := step.1
    missingFields := step.2
    experienceType := detectExperienceType content
    language := detectLanguage content
    draftContent := content
    frontmatter := fm
    isSufficient := decide (step.2.length = 0) }

/-!
## Experience locator (`experience-locator.ts`)
-/

/-- The four query types of `parseQuery` (`pdate` is the source's
partial-date type). -/
inductive QueryType where
  | exactDate : QueryType
  | pdate : QueryType
  | slugKeyword : QueryType
  | textMatch : QueryType
deriving DecidableEq

/-- A parsed query; `none` components model absent (`undefined`) values. -/
structure ExperienceQuery where
  query : JStr
  qtype : QueryType
  year : Option Nat := none
  month : Option Nat := none
  day : Option Nat := none
  keywords : List JStr := []
deriving DecidableEq

/-- JavaScript `Number` on an all-digit string. -/
def natOfDigits (s : JStr) : Nat :=
  s.foldl (fun acc c => acc * 10 + (c.toNat - 48)) 0

/-- Split a list at every occurrence of a separator character
(`s.split('-')`). -/
def splitOnChar (sep : Char) : JStr → List JStr
  | [] => [[]]
  | c :: rest =>
      let r := splitOnChar sep rest
      if c = sep then [] :: r
      else (c :: r.headD []) :: r.tail

/-- The split `s.split(/\s+/)`: runs of whitespace separate the pieces; a
leading or trailing run contributes an empty piece, as in JavaScript. -/
def jsSplitWs (acc : JStr) : JStr → List JStr
  | [] => [acc.reverse]
  | c :: rest =>
      if isJsWs c then acc.reverse :: jsSplitWs [] (rest.dropWhile isJsWs)
      else jsSplitWs (c :: acc) rest
termination_by s => s.length
decreasing_by
  · exact Nat.lt_succ_of_le (List.IsSuffix.length_le (List.dropWhile_suffix isJsWs))
  · simp

/-- Anchored pattern for an exact date `^\d{4}-\d{2}-\d{2}$`. -/
def reExactDate : RE := rseq [rdig4, rchar '-', rdig2, rchar '-', rdig2]

/-- Anchored pattern for a partial date `^\d{4}(-\d{2})?$`. -/
def rePartialDate : RE := rseq [rdig4, ropt (rseq [rchar '-', rdig2])]

/-- Anchored pattern for a slug keyword `^[a-z0-9-]+$`. -/
def reSlugKeyword : RE :=
  rplus (RE.cls (fun c => ('a' ≤ c && c ≤ 'z') || ('0' ≤ c && c ≤ '9') || c = '-'))

/-- The function `parseQuery`: exact date, then partial date, then slug
keyword, then free-text fallback. -/
def parseQuery (q : JStr) : ExperienceQuery :=
  if reFullMatch reExactDate q then
    let parts := (splitOnChar '-' q).map natOfDigits
    { query := q, qtype := .exactDate,
      year := parts.get? 0, month := parts.get? 1, day := parts.get? 2 }
  else if reFullMatch rePartialDate q then
    let parts := (splitOnChar '-' q).map natOfDigits
    { query := q, qtype := .pdate, year := parts.get? 0, month := parts.get? 1 }
  else if reFullMatch reSlugKeyword q then
    { query := q, qtype := .slugKeyword, keywords := [q] }
  else
    { query := q, qtype := .textMatch, keywords := jsSplitWs [] (jsLower q) }

/-- An experience directory as the locator sees it: the directory name,
the calendar date parsed from it (`scoreMatch` re-derives the year,
month and day from `date.toISOString()`, which round-trips the
`YYYY-MM-DD` directory prefix), and the slug. -/
structure ExperienceDir where
  name : JStr
  year : Nat
  month : Nat
  day : Nat
  slug : JStr
deriving DecidableEq

/-- Truthiness of the optional numeric month component (`0` is falsy). -/
def natOptTruthy : Option Nat → Bool
  | none => false
  | some n => decide (n ≠ 0)

/-- The function `scoreMatch`, case by case as in the source. -/
def scoreMatch (e : ExperienceDir) (q : ExperienceQuery) : ℚ :=
  match q.qtype with
  | .exactDate =>
      if q.year = some e.year ∧ q.month = some e.month ∧ q.day = some e.day then 1 else 0
  | .pdate =>
      if ¬(some e.year = q.year) then 0
      else if natOptTruthy q.month ∧ some e.month = q.month then Rat.divInt 8 10
      else if ¬(natOptTruthy q.month) then Rat.divInt 6 10
      else 0
  | .slugKeyword =>
      let keyword := q.keywords.headD []
      if e.slug = keyword then 1
      else if jsIncludes e.slug keyword then Rat.divInt 9 10
      else if jsIncludes e.name keyword then Rat.divInt 7 10
      else 0
  | .textMatch =>
      let nameL := jsLower e.name
      let matchCount := (q.keywords.filter (fun kw => jsIncludes nameL kw)).length
      if matchCount = 0 then 0
      else if matchCount = q.keywords.length then Rat.divInt 8 10
      else Rat.divInt 4 10 + Rat.divInt 3 10 * Rat.divInt (matchCount : Int) (q.keywords.length : Int)

/-- The function `getMatchReason`. -/
def getMatchReason (q : ExperienceQuery) : JStr :=
  match q.qtype with
  | .exactDate => "Exact date match: ".data ++ q.query
  | .pdate => "Partial date match: ".data ++ q.query
  | .slugKeyword => "Slug keyword match: ".data ++ q.query
  | .textMatch => "Text match: ".data ++ q.query

/-- One search result. -/
structure SearchResult where
  experience : ExperienceDir
  score : ℚ
  matchReason : JStr
deriving DecidableEq

/-- The filtering loop of `search`: keep experiences scoring strictly
above 0.3, in listing order. -/
def searchResultsRaw (exps : List ExperienceDir) (pq : ExperienceQuery) :
    List SearchResult :=
  exps.filterMap (fun e =>
    let score := scoreMatch e pq
    if Rat.divInt 3 10 < score then some ⟨e, score, getMatchReason pq⟩ else none)

/-- Stable insertion of a result into a list sorted by score descending. -/
def insertByScore (x : SearchResult) : List SearchResult → List SearchResult
  | [] => [x]
  | y :: rest => if y.score < x.score then x :: y :: rest else y :: insertByScore x rest

/-- Stable sort by score descending: the unique stable descending
arrangement, which is what the source's `sort((a, b) => b.score -
a.score)` produces (JavaScript `Array.prototype.sort` is stable). -/
def sortByScoreDesc (l : List SearchResult) : List SearchResult :=
  l.foldr insertByScore []

/-- The method `ExperienceLocator.search` over a given experience list. -/
def search (exps : List ExperienceDir) (q : JStr) : List SearchResult :=
  sortByScoreDesc (searchResultsRaw exps (parseQuery q))

/-!
## File-manager validators (`file-manager.ts`) and the experience
repository (`experience-manager.ts`)
-/

/-- Anchored pattern `^\d{4}-\d{2}-\d{2}-[a-z0-9-]+$` for directory
names. -/
def reDirName : RE :=
  rseq [rdig4, rchar '-', rdig2, rchar '-', rdig2, rchar '-',
        rplus (RE.cls (fun c => ('a' ≤ c && c ≤ 'z') || ('0' ≤ c && c ≤ '9') || c = '-'))]

/-- Gregorian leap year. -/
def isLeapYear (y : Nat) : Bool :=
  (y % 4 = 0 && y % 100 ≠ 0) || y % 400 = 0

/-- Days in a month. -/
def daysInMonth (y m : Nat) : Nat :=
  if m = 2 then (if isLeapYear y then 29 else 28)
  else if m = 4 || m = 6 || m = 9 || m = 11 then 30
  else 31

/-- Calendar validity of a year/month/day triple, as checked by
`isValid(parse(dateStr, 'yyyy-MM-dd', ...))` in date-fns (strict: month
1-12 and a real day of that month). -/
def isValidYMD (y m d : Nat) : Bool :=
  1 ≤ m && m ≤ 12 && 1 ≤ d && d ≤ daysInMonth y m

/-- The list `WINDOWS_RESERVED`. -/
def windowsReserved : List JStr :=
  (["con", "prn", "aux", "nul", "com1", "com2", "com3", "com4", "com5",
    "com6", "com7", "com8", "com9", "lpt1", "lpt2", "lpt3", "lpt4", "lpt5",
    "lpt6", "lpt7", "lpt8", "lpt9"]).map String.data

/-- Head-equality test (for `startsWith('-')` and, on the reversed list,
`endsWith('-')`). -/
def headIs (c : Char) : JStr → Bool
  | [] => false
  | x :: _ => x = c

/-- Join pieces with a separator character (`parts.join('-')`). -/
def joinWith (sep : Char) : List JStr → JStr
  | [] => []
  | [x] => x
  | x :: y :: rest => x ++ sep :: joinWith sep (y :: rest)

/-- The function `validateExperienceDirName` (the error strings of the
source are not modelled, only validity). -/
def validateExperienceDirName (dirName : JStr) : Bool :=
  if !(reFullMatch reDirName dirName) then false
  else if 100 < dirName.length then false
  else
    let parts := splitOnChar '-' dirName
    let y := natOfDigits ((parts.get? 0).getD [])
    let m := natOfDigits ((parts.get? 1).getD [])
    let d := natOfDigits ((parts.get? 2).getD [])
    if !(isValidYMD y m d) then false
    else
      let slug := joinWith '-' (parts.drop 3)
      if slug.length = 0 || 50 < slug.length then false
      else if windowsReserved.contains (jsLower slug) then false
      else if headIs '-' slug || headIs '-' slug.reverse then false
      else true

/-- The function `parseExperienceDirName`: pattern
`^(\d{4}-\d{2}-\d{2})-(.+)$` plus date-fns calendar validity; returns
the date string and the slug. -/
def parseExperienceDirName (dirName : JStr) : Option (JStr × JStr) :=
  if reFullMatch (rseq [rdig4, rchar '-', rdig2, rchar '-', rdig2, rchar '-', rplus rdot])
      dirName then
    let dateStr := dirName.take 10
    let y := natOfDigits (dirName.take 4)
    let m := natOfDigits ((dirName.drop 5).take 2)
    let d := natOfDigits ((dirName.drop 8).take 2)
    if isValidYMD y m d then some (dateStr, dirName.drop 11) else none
  else none

/-- The three version artifacts of an experience. -/
inductive VersionType where
  | draft : VersionType
  | refined : VersionType
  | archived : VersionType
deriving DecidableEq

/-- The version files of one experience directory (`none` = the file does
not exist). -/
structure ExpFiles where
  draft : Option JStr := none
  refined : Option JStr := none
  archived : Option JStr := none
deriving DecidableEq

instance : Inhabited ExpFiles := ⟨{}⟩

/-- The experiences directory: an association list from directory name to
its version files, in creation order. A present key models an existing
directory. -/
abbrev ExpStore := List (JStr × ExpFiles)

/-- Directory lookup. -/
def storeGet (st : ExpStore) (dir : JStr) : Option ExpFiles :=
  (st.find? (fun p => p.1 = dir)).map Prod.snd

/-- Create or replace a directory entry. -/
def storeSet (st : ExpStore) (dir : JStr) (f : ExpFiles) : ExpStore :=
  if (st.find? (fun p => p.1 = dir)).isSome then
    st.map (fun p => if p.1 = dir then (dir, f) else p)
  else st ++ [(dir, f)]

/-- Content of one version file of one experience. -/
def getVersionFile (st : ExpStore) (dir : JStr) (v : VersionType) : Option JStr :=
  (storeGet st dir).bind (fun f =>
    match v with
    | .draft => f.draft
    | .refined => f.refined
    | .archived => f.archived)

/-- The typed errors thrown by the repository; each constructor stands
for one `throw new Error(...)` site of `experience-manager.ts`. -/
inductive RepoError where
  | invalidDirName (dirName : JStr) : RepoError
  | alreadyExists (dirName : JStr) : RepoError
  | notFound (dirName : JStr) : RepoError
  | refinedExists (dirName : JStr) : RepoError
  | noRefinedVersion (dirName : JStr) : RepoError
  | archivedExists (dirName : JStr) : RepoError
deriving DecidableEq

/-- The `ExperienceContent` record taken by `createExperience`. -/
structure ExperienceContent where
  title : JStr
  company : JStr
  role : JStr
  description : Option JStr := none
deriving DecidableEq

/-- Zero-padded two-digit rendering. -/
def pad2 (n : Nat) : JStr := if n < 10 then '0' :: natDecimal n else natDecimal n

/-- Zero-padded four-digit rendering. -/
def pad4 (n : Nat) : JStr :=
  if n < 10 then '0' :: '0' :: '0' :: natDecimal n
  else if n < 100 then '0' :: '0' :: natDecimal n
  else if n < 1000 then '0' :: natDecimal n
  else natDecimal n

/-- date-fns `format(date, 'yyyy-MM-dd')`. -/
def fmtDate (y m d : Nat) : JStr := pad4 y ++ '-' :: pad2 m ++ '-' :: pad2 d

/-- Modelled library boundary (gray-matter `stringifyMarkdown`): a
deterministic serialization of frontmatter plus body. No claim examines
the serialized text; only its identity as a written file content
matters. -/
def stringifyMarkdown (body : JStr) (fm : Frontmatter) : JStr :=
  "---\n".data ++ fm.flatMap (fun p => p.1 ++ '=' :: jsonStringify p.2 ++ ['\n']) ++
    "---\n".data ++ body

/-- The method `ExperienceManager.createExperience`: validate the
directory name, fail if the directory exists, otherwise create it with a
`draft.md` assembled from the content record. Returns the resulting
store and the error, if any; every throw happens before any write. -/
def createExperience (st : ExpStore) (y m d : Nat) (slug : JStr)
    (content : ExperienceContent) : ExpStore × Option RepoError :=
  let dateStr := fmtDate y m d
  let dirName := dateStr ++ '-' :: slug
  if !(validateExperienceDirName dirName) then (st, some (.invalidDirName dirName))
  else if (storeGet st dirName).isSome then (st, some (.alreadyExists dirName))
  else
    let fmPairs : Frontmatter :=
      [("date".data, Json.str dateStr), ("title".data, Json.str content.title),
       ("company".data, Json.str content.company), ("role".data, Json.str content.role)] ++
      (match content.description with
       | some dsc => [("description".data, Json.str dsc)]
       | none => [])
    let body := match content.description with
      | some dsc => '\n' :: '#' :: ' ' :: content.title ++ "\n\n".data ++ dsc ++ ['\n']
      | none => '\n' :: '#' :: ' ' :: content.title ++ "\n\n".data
    (storeSet st dirName { draft := some (stringifyMarkdown body fmPairs) }, none)

/-- The method `ExperienceManager.addRefinedVersion`: not-found and
already-exists guards, then a single write. -/
def addRefinedVersion (st : ExpStore) (dirName content : JStr) :
    ExpStore × Option RepoError :=
  match storeGet st dirName with
  | none => (st, some (.notFound dirName))
  | some files =>
      if files.refined.isSome then (st, some (.refinedExists dirName))
      else (storeSet st dirName { files with refined := some content }, none)

/-- The method `ExperienceManager.addArchivedVersion`: not-found,
refined-prerequisite and already-exists guards, then a single write. -/
def addArchivedVersion (st : ExpStore) (dirName content : JStr) :
    ExpStore × Option RepoError :=
  match storeGet st dirName with
  | none => (st, some (.notFound dirName))
  | some files =>
      if files.refined.isNone then (st, some (.noRefinedVersion dirName))
      else if files.archived.isSome then (st, some (.archivedExists dirName))
      else (storeSet st dirName { files with archived := some content }, none)

/-!
## Migration engine (`migration-service.ts`, `slug-generator.ts`)

The legacy three-bucket layout and the experiences directory are
disjoint directories under the project root, modelled as separate state
fields. `readdir` listing order is the list order. The external
`slugify` npm package (`generateSlug`) is a parameter `slugFn`; MD5
checksums are abstracted by content identity (per the design notes only
round-trip equality, not the algorithm, is contractual).
-/

/-- The three legacy source buckets. -/
inductive Bucket where
  | drafts : Bucket
  | inProg : Bucket
  | archiveB : Bucket
deriving DecidableEq

/-- Contents of the legacy buckets; `none` models an absent directory,
entries are `(filename, content)` in listing order. -/
structure LegacyDirs where
  drafts : Option (List (JStr × JStr)) := none
  inProg : Option (List (JStr × JStr)) := none
  archiveB : Option (List (JStr × JStr)) := none
deriving DecidableEq

/-- The per-mapping status. -/
inductive MapStatus where
  | pending : MapStatus
  | inProgressStatus : MapStatus
  | completed : MapStatus
  | failed : MapStatus
deriving DecidableEq

/-- One experience mapping of the migration plan. Source files are
`(bucket, filename)` pairs — the model of the source's filepaths. -/
structure MigMapping where
  experienceDir : JStr
  srcDraft : Option (Bucket × JStr) := none
  srcRefined : Option (Bucket × JStr) := none
  srcArchived : Option (Bucket × JStr) := none
  status : MapStatus := .pending
  errMsg : Option JStr := none
  checksums : Option ExpFiles := none
deriving DecidableEq

/-- The migration phases. -/
inductive MigPhase where
  | scanning : MigPhase
  | grouping : MigPhase
  | validating : MigPhase
  | converting : MigPhase
  | verifying : MigPhase
  | cleanup : MigPhase
  | completed : MigPhase
  | failed : MigPhase
deriving DecidableEq

/-- The persisted migration manifest (the fields the claims touch). -/
structure ManifestM where
  phase : MigPhase
  mappings : List MigMapping
  experiencesCreated : Nat
  filesScanned : Nat
  experiencesTotal : Nat
  errors : List JStr
  dryRun : Bool
deriving DecidableEq

/-- The filesystem state seen by the migration engine. -/
structure MigState where
  legacy : LegacyDirs
  experiencesDirCreated : Bool := false
  experiences : ExpStore := []
  backups : Option LegacyDirs := none
  manifest : Option ManifestM := none
deriving DecidableEq

/-- One scanned legacy file. -/
structure ScannedFile where
  source : Bucket
  filename : JStr
  date : Option JStr
  slug : JStr
deriving DecidableEq

/-- Anchored pattern `^\d{4}-\d{2}-\d{2}` used on filenames. -/
def reDateLead : RE := rseq [rdig4, rchar '-', rdig2, rchar '-', rdig2]

/-- The function `extractDateFromFilename`: the `YYYY-MM-DD` prefix of a
filename if present (no calendar check). -/
def extractDateFromFilename (filename : JStr) : Option JStr :=
  match reLeadLen reDateLead filename with
  | some n => some (filename.take n)
  | none => none

/-- JavaScript `s.replace(target, '')` for a plain-string target: remove
the first occurrence. -/
def jsReplaceFirst : JStr → JStr → JStr
  | s, target =>
    if jsStartsWith s target then s.drop target.length
    else
      match s with
      | [] => []
      | c :: rest => c :: jsReplaceFirst rest target

/-- The replace `nameWithoutExt.replace(/^\d{4}-\d{2}-\d{2}-?/, '')`. -/
def stripDateLead (s : JStr) : JStr :=
  match reLeadLen (rseq [reDateLead, ropt (rchar '-')]) s with
  | some n => s.drop n
  | none => s

/-- The call `s.endsWith(target)`. -/
def jsEndsWith (s target : JStr) : Bool := jsStartsWith s.reverse target.reverse

/-- Bucket contents of a state. -/
def bucketFiles (ld : LegacyDirs) : Bucket → Option (List (JStr × JStr))
  | .drafts => ld.drafts
  | .inProg => ld.inProg
  | .archiveB => ld.archiveB

/-- One bucket scan of `scanPhase`: list the `.md` files of the bucket
(if it exists) and derive date and slug from each filename. -/
def scanBucket (slugFn : JStr → JStr) (ld : LegacyDirs) (bucket : Bucket) :
    List ScannedFile :=
  match bucketFiles ld bucket with
  | none => []
  | some fs =>
      ((fs.map Prod.fst).filter (fun f => jsEndsWith f ".md".data)).map (fun filename =>
        let date := extractDateFromFilename filename
        let nameWithoutExt := jsReplaceFirst filename ".md".data
        let slugPart := match date with
          | some _ => stripDateLead nameWithoutExt
          | none => nameWithoutExt
        let slug := if slugPart ≠ [] then slugFn slugPart else slugFn nameWithoutExt
        ⟨bucket, filename, date, slug⟩)

/-- The three bucket scans concatenated (drafts, in-progress, archive). -/
def scanPhase (slugFn : JStr → JStr) (st : MigState) : List ScannedFile :=
  scanBucket slugFn st.legacy .drafts ++ scanBucket slugFn st.legacy .inProg ++
    scanBucket slugFn st.legacy .archiveB

/-- One slot group of the grouping phase. -/
structure VersionGroup where
  draft : Option ScannedFile := none
  refined : Option ScannedFile := none
  archiveV : Option ScannedFile := none
deriving DecidableEq

/-- A duplicate-slot conflict (informational; `migrate` drops it). -/
structure MigConflict where
  files : List JStr
  key : JStr
deriving DecidableEq

/-- Group lookup. -/
def groupsGet (groups : List (JStr × VersionGroup)) (key : JStr) : Option VersionGroup :=
  (groups.find? (fun p => p.1 = key)).map Prod.snd

/-- Group insert-or-replace, preserving insertion order. -/
def groupsSet (groups : List (JStr × VersionGroup)) (key : JStr) (g : VersionGroup) :
    List (JStr × VersionGroup) :=
  if (groups.find? (fun p => p.1 = key)).isSome then
    groups.map (fun p => if p.1 = key then (key, g) else p)
  else groups ++ [(key, g)]

/-- The slot of a group addressed by a bucket (`drafts` feeds `draft`,
`in-progress` feeds `refined`, `archive` feeds `archived`). -/
def groupSlot (g : VersionGroup) : Bucket → Option ScannedFile
  | .drafts => g.draft
  | .inProg => g.refined
  | .archiveB => g.archiveV

/-- Fill the slot of a group addressed by a bucket. -/
def setGroupSlot (g : VersionGroup) (b : Bucket) (f : ScannedFile) : VersionGroup :=
  match b with
  | .drafts => { g with draft := some f }
  | .inProg => { g with refined := some f }
  | .archiveB => { g with archiveV := some f }

/-- The dated-file step of `groupingPhase`: the file lands in its
bucket's slot of the group of its key; the first file wins and later
ones become duplicate-date conflicts. -/
def groupStepDated (acc : List (JStr × VersionGroup) × List MigConflict × List JStr)
    (file : ScannedFile) (key : JStr) :
    List (JStr × VersionGroup) × List MigConflict × List JStr :=
  match groupSlot ((groupsGet acc.1 key).getD {}) file.source with
  | some prev =>
      (acc.1, acc.2.1 ++ [⟨[prev.filename, file.filename], key⟩], acc.2.2)
  | none =>
      (groupsSet acc.1 key
        (setGroupSlot ((groupsGet acc.1 key).getD {}) file.source file),
       acc.2.1, acc.2.2)

/-- One step of the grouping fold: an undated file is unmapped, a dated
file is slotted under its `date-slug` key. -/
def groupStep (acc : List (JStr × VersionGroup) × List MigConflict × List JStr)
    (file : ScannedFile) :
    List (JStr × VersionGroup) × List MigConflict × List JStr :=
  match file.date with
  | none => (acc.1, acc.2.1, acc.2.2 ++ [file.filename])
  | some date =>
      groupStepDated acc file (if file.slug ≠ [] then date ++ '-' :: file.slug else date)

/-- The grouping fold over the scanned files. -/
def groupingPhase (files : List ScannedFile) :
    List (JStr × VersionGroup) × List MigConflict × List JStr :=
  files.foldl groupStep ([], [], [])

/-- The method `createMappings`: use the group key as the directory name;
if it fails validation, repair it from the `^(\d{4}-\d{2}-\d{2})-?(.*)$`
shape (re-slugified remainder or the literal `unnamed`), else append
`-unnamed`. -/
def createMappings (slugFn : JStr → JStr) (groups : List (JStr × VersionGroup)) :
    List MigMapping :=
  groups.map (fun p =>
    let key := p.1
    let group := p.2
    let dirName :=
      if validateExperienceDirName key then key
      else if reFullMatch (rseq [reDateLead, ropt (rchar '-'), RE.star rdot]) key then
        let rest := match reLeadLen (rseq [reDateLead, ropt (rchar '-')]) key with
          | some n => key.drop n
          | none => key
        let slug2 := if rest ≠ [] then slugFn rest else "unnamed".data
        key.take 10 ++ '-' :: slug2
      else key ++ "-unnamed".data
    { experienceDir := dirName
      srcDraft := group.draft.map (fun f => (f.source, f.filename))
      srcRefined := group.refined.map (fun f => (f.source, f.filename))
      srcArchived := group.archiveV.map (fun f => (f.source, f.filename))
      status := .pending })

/-- Read one file of a legacy layout by bucket and filename. -/
def readLegacyLD (ld : LegacyDirs) (src : Bucket × JStr) : Option JStr :=
  (bucketFiles ld src.1).bind (fun fs =>
    (fs.find? (fun p => p.1 = src.2)).map Prod.snd)

/-- Read one legacy file by bucket and filename. -/
def readLegacyFile (st : MigState) (src : Bucket × JStr) : Option JStr :=
  readLegacyLD st.legacy src

/-- Write (or overwrite) one version file of an experience directory,
creating the directory entry if needed (`writeFile` ensures the parent
directory). -/
def writeVersionFile (st : MigState) (dir : JStr) (v : VersionType) (content : JStr) :
    MigState :=
  let files := (storeGet st.experiences dir).getD {}
  let files2 := match v with
    | .draft => { files with draft := some content }
    | .refined => { files with refined := some content }
    | .archived => { files with archived := some content }
  { st with experiences := storeSet st.experiences dir files2 }

/-- Record one checksum (content identity models the MD5 digest). -/
def setChecksum (sums : ExpFiles) (v : VersionType) (content : JStr) : ExpFiles :=
  match v with
  | .draft => { sums with draft := some content }
  | .refined => { sums with refined := some content }
  | .archived => { sums with archived := some content }

/-- One copying step of `convertExperience`: read the slot source and
write it verbatim into the corresponding version filename, recording a
checksum. Writes are unconditional (no existence check). A failing read
aborts the rest of the mapping but keeps the writes already done, as a
thrown exception does. -/
def convertStep (dir : JStr) (acc : MigState × Except JStr ExpFiles)
    (slot : Option (Bucket × JStr) × VersionType) : MigState × Except JStr ExpFiles :=
  match acc.2 with
  | .error e => (acc.1, .error e)
  | .ok sums =>
      match slot.1 with
      | none => acc
      | some src =>
          match readLegacyFile acc.1 src with
          | none => (acc.1, .error ("ENOENT: no such file ".data ++ src.2))
          | some content =>
              (writeVersionFile acc.1 dir slot.2 content,
               .ok (setChecksum sums slot.2 content))

/-- The whole conversion of one mapping: ensure the directory, then fold
the copying step over the three source slots. -/
def convertExperience (st0 : MigState) (m : MigMapping) :
    MigState × Except JStr ExpFiles :=
  [(m.srcDraft, VersionType.draft), (m.srcRefined, VersionType.refined),
   (m.srcArchived, VersionType.archived)].foldl (convertStep m.experienceDir)
    (if (storeGet st0.experiences m.experienceDir).isSome then st0
     else { st0 with experiences := storeSet st0.experiences m.experienceDir {} },
     .ok {})

/-- The method `verifyExperience`: re-read every checksummed file and
compare (content identity models digest equality). -/
def verifyExperience (st : MigState) (m : MigMapping) : Bool :=
  match m.checksums with
  | none => true
  | some sums =>
      let check := fun (v : VersionType) (expected : Option JStr) =>
        match expected with
        | none => true
        | some h => decide (getVersionFile st.experiences m.experienceDir v = some h)
      check .draft sums.draft && check .refined sums.refined && check .archived sums.archived

/-- The result record of `migrate`. -/
structure MigResult where
  success : Bool
  experiencesCreated : Nat
  errors : List JStr
deriving DecidableEq

/-- One conversion step of `migrate`: convert the mapping, record it as
completed with its checksums or as failed with its error, and keep the
running manifest current. -/
def migStep (manifest0 : ManifestM)
    (acc : MigState × List MigMapping × Nat × List JStr) (m : MigMapping) :
    MigState × List MigMapping × Nat × List JStr :=
  match (convertExperience acc.1 m).2 with
  | .ok sums =>
      ({ (convertExperience acc.1 m).1 with manifest := some { manifest0 with
          phase := .converting,
          mappings := acc.2.1 ++ [{ m with status := .completed, checksums := some sums }],
          experiencesCreated := acc.2.2.1 + 1 } },
       acc.2.1 ++ [{ m with status := .completed, checksums := some sums }],
       acc.2.2.1 + 1, acc.2.2.2)
  | .error msg =>
      ({ (convertExperience acc.1 m).1 with manifest := some { manifest0 with
          phase := .converting,
          mappings := acc.2.1 ++ [{ m with status := .failed, errMsg := some msg }],
          experiencesCreated := acc.2.2.1 } },
       acc.2.1 ++ [{ m with status := .failed, errMsg := some msg }],
       acc.2.2.1, acc.2.2.2 ++ [msg])

/-- The method `migrate`: scan, group, map; in dry-run mode return the
mapping count with no state change at all (the dry-run branch returns
before the first `saveManifest`, `ensureDirectory` or write). Otherwise
save the manifest, ensure the experiences directory, convert each
mapping (per-mapping failures are caught and recorded without aborting
the batch), verify, copy the legacy buckets into the backup, and save
the completed manifest. -/
def migrate (slugFn : JStr → JStr) (dryRun : Bool) (st : MigState) :
    MigState × MigResult :=
  let scanned := scanPhase slugFn st
  let grouped := groupingPhase scanned
  let mappings := createMappings slugFn grouped.1
  if dryRun then
    (st, { success := true, experiencesCreated := mappings.length, errors := [] })
  else
    let manifest0 : ManifestM :=
      { phase := .validating, mappings := mappings, experiencesCreated := 0,
        filesScanned := scanned.length, experiencesTotal := mappings.length,
        errors := [], dryRun := false }
    let st1 := { st with manifest := some manifest0, experiencesDirCreated := true }
    let afterConvert := mappings.foldl (migStep manifest0) (st1, [], 0, [])
    let st2 := afterConvert.1
    let doneMappings := afterConvert.2.1
    let created := afterConvert.2.2.1
    let convErrors := afterConvert.2.2.2
    let verifyErrors := (doneMappings.filter (fun m => m.status = .completed)).filterMap
      (fun m => if verifyExperience st2 m then none
                else some ("Content verification failed".data))
    let errors := convErrors ++ verifyErrors
    let bk : LegacyDirs :=
      { drafts := st2.legacy.drafts, inProg := st2.legacy.inProg,
        archiveB := st2.legacy.archiveB }
    let st3 := { st2 with backups := some bk }
    let st4 := { st3 with manifest := some { manifest0 with
      phase := .completed, mappings := doneMappings,
      experiencesCreated := created, errors := errors } }
    (st4, { success := errors.isEmpty, experiencesCreated := created, errors := errors })

/-!
## Dynamic-question validator (`cli/utils/prompts.ts`)
-/

/-- The constant `MAX_DYNAMIC_QUESTIONS` (6). -/
def maxDynamicQuestions : Nat := 6

/-- Is a property a present, truthy string? This is the source check
`!item.field || typeof item.field !== 'string'` negated: absent,
non-string and empty-string values all fail it. (For a `null` array
element the source throws a `TypeError` on property access instead of
its own message; both are modelled as the same rejection.) -/
def nonEmptyStringProp (item : Json) (key : JStr) : Bool :=
  match jsGet item key with
  | some (Json.str s) => decide (s ≠ [])
  | _ => false

/-- Inner loop of `validateDynamicQuestions`: find the first invalid
element and report its index. -/
def validateItemsFrom (items : List Json) : Nat → List Json → Except JStr Unit
  | _, [] => .ok ()
  | i, item :: rest =>
      if !(nonEmptyStringProp item "field".data) then
        .error ("Question at index ".data ++ natDecimal i ++
          " is missing required \"field\" property".data)
      else if !(nonEmptyStringProp item "question".data) then
        .error ("Question at index ".data ++ natDecimal i ++
          " is missing required \"question\" property".data)
      else validateItemsFrom items (i + 1) rest

/-- The function `validateDynamicQuestions`: `none` models input that
`JSON.parse` rejects; otherwise the value must be an array of at most 6
elements, each with non-empty string `field` and `question` properties,
and is returned verbatim. -/
def validateDynamicQuestions (input : Option Json) : Except JStr (List Json) :=
  match input with
  | none => .error "Invalid JSON: could not parse questions input".data
  | some parsed =>
      match parsed with
      | Json.arr items =>
          if maxDynamicQuestions < items.length then
            .error "Questions exceed maximum of 6".data
          else
            match validateItemsFrom items 0 items with
            | .ok _ => .ok items
            | .error e => .error e
      | _ => .error "Questions must be a JSON array".data

/-!
## Spec-side definitions

Definitions transcribed from the specification's and claims' wording, to
be compared with the source-transcribed definitions above. They are the
only definitions in this file not derived from the source.
-/

/-- Claim wording: duration earns the full bonus when it "has both start
and end values". -/
def durationHasStartEnd (d : Option Json) : Bool :=
  match d with
  | some (Json.obj fs) =>
      jsOptTruthy (jsGet (.obj fs) "start".data) && jsOptTruthy (jsGet (.obj fs) "end".data)
  | _ => false

/-- Claim wording: some achievement text matches the quantitative
pattern. -/
def hasQuantitativeAchievement (a : Option (List Json)) : Bool :=
  ((a.getD []).map (fun x => match x with | Json.str s => s | v => jsonStringify v)).any
    (fun t => testR quantitativeRe t)

/-- Claim-side quality for `title` (binary present / absent). -/
def claimTitleQuality (t : Option JStr) : ℚ := if jsStrPresent t then 1 else 0

/-- Claim-side quality for `duration`. -/
def claimDurationQuality (d : Option Json) : ℚ :=
  if jsOptTruthy d then (if durationHasStartEnd d then 1 else Rat.divInt 7 10) else 0

/-- Presence of achievements (non-empty array). -/
def achievementsPresent (a : Option (List Json)) : Bool :=
  match a with
  | none => false
  | some l => decide (0 < l.length)

/-- Claim-side quality for `achievements`. -/
def claimAchievementsQuality (a : Option (List Json)) : ℚ :=
  if achievementsPresent a then
    (if hasQuantitativeAchievement a then 1 else Rat.divInt 7 10)
  else 0

/-- Presence of technologies (non-empty array). -/
def technologiesPresent (a : Option (List Json)) : Bool :=
  match a with
  | none => false
  | some l => decide (0 < l.length)

/-- Claim-side quality for `technologies` (full bonus above three
entries). -/
def claimTechnologiesQuality (a : Option (List Json)) : ℚ :=
  if technologiesPresent a then
    (if 3 < (a.getD []).length then 1 else Rat.divInt 7 10)
  else 0

/-- Quality for `learnings` exactly as claim C3 words it: full bonus when
the text length exceeds 50 characters (no trimming). -/
def claimLearningsQuality (l : Option JStr) : ℚ :=
  if jsStrPresent l then
    (if 50 < (l.getD []).length then 1 else Rat.divInt 7 10)
  else 0

/-- Quality for `learnings` as amended: the code measures the trimmed
text. -/
def amendedLearningsQuality (l : Option JStr) : ℚ :=
  if jsStrPresent l then
    (if 50 < (jsTrim (l.getD [])).length then 1 else Rat.divInt 7 10)
  else 0

/-- Claim-side quality for `project` (binary). -/
def claimProjectQuality (p : Option JStr) : ℚ := if jsStrPresent p then 1 else 0

/-- Claim-side quality for `reflections` (binary). -/
def claimReflectionsQuality (r : Option JStr) : ℚ := if jsStrPresent r then 1 else 0

/-- The claim's weighted sum `Σ (weight × qualityScore)` over the fixed
weight table, with the claim's verbatim (untrimmed) learnings rule. -/
def claimWeightedSum (data : CompletenessInput) : ℚ :=
  weightTitle * claimTitleQuality data.title
  + weightDuration * claimDurationQuality data.duration
  + weightAchievements * claimAchievementsQuality data.achievements
  + weightTechnologies * claimTechnologiesQuality data.technologies
  + weightLearnings * claimLearningsQuality data.learnings
  + weightProject * claimProjectQuality data.project
  + weightReflections * claimReflectionsQuality data.reflections

/-- Claim C3's score formula, verbatim:
`round(100 × Σ(weight×qualityScore)/Σ(weight))`. -/
def claimScoreC3 (data : CompletenessInput) : ℤ :=
  round (100 * claimWeightedSum data / totalWeight)

/-- The amended weighted sum: as the claim's, but with the trimmed
learnings rule. -/
def amendedWeightedSum (data : CompletenessInput) : ℚ :=
  weightTitle * claimTitleQuality data.title
  + weightDuration * claimDurationQuality data.duration
  + weightAchievements * claimAchievementsQuality data.achievements
  + weightTechnologies * claimTechnologiesQuality data.technologies
  + weightLearnings * amendedLearningsQuality data.learnings
  + weightProject * claimProjectQuality data.project
  + weightReflections * claimReflectionsQuality data.reflections

/-- The four weighted sums (all multiples of one half in `[0, 100]`) at
which the binary64 evaluation `Math.round((w/100)*100)` loses the half:
14.5, 28.5, 56.5 and 57.5. Of these only 56.5 and 57.5 are reachable
weighted sums of the scorer. -/
def scaledRoundingLoss (w : ℚ) : Bool :=
  w = Rat.divInt 29 2 || w = Rat.divInt 57 2 || w = Rat.divInt 113 2 || w = Rat.divInt 115 2

/-- A rational that is `n/2` for some natural `n ≤ bound` (the shape of
every weighted partial sum of the scorer). -/
def IsHalfNat (bound : Nat) (x : ℚ) : Prop :=
  ∃ n : Nat, n ≤ bound ∧ x = Rat.divInt (n : Int) 2

/-- The fixed order in which `calculateCompleteness` emits its advisory
strings (claim C4, amended: `title` and `reflections` never produce
one). -/
def suggestionOrder : List JStr :=
  [sugDuration, sugAchQuant, sugAchievements, sugTechnologies, sugLearnings, sugProject]

/-- One step of the Experience Repository: the state transition performed
by one call of a mutating operation (the resulting state whether the
call succeeds or throws). -/
inductive RepoStep : ExpStore → ExpStore → Prop where
  | create (st : ExpStore) (y m d : Nat) (slug : JStr) (content : ExperienceContent) :
      RepoStep st (createExperience st y m d slug content).1
  | refine (st : ExpStore) (dir c : JStr) :
      RepoStep st (addRefinedVersion st dir c).1
  | archiveOp (st : ExpStore) (dir c : JStr) :
      RepoStep st (addArchivedVersion st dir c).1

/-- The ordering invariant of claim C2: `refined` only with `draft`,
`archived` only with `refined`. -/
def orderedVersions (st : ExpStore) : Prop :=
  ∀ dir f, storeGet st dir = some f →
    (f.refined.isSome → f.draft.isSome) ∧ (f.archived.isSome → f.refined.isSome)

/-- The auxiliary (stronger) repository invariant: every experience
directory the repository creates carries a draft. -/
def repoInv (st : ExpStore) : Prop :=
  ∀ dir f, storeGet st dir = some f →
    f.draft.isSome ∧ (f.archived.isSome → f.refined.isSome)

/-- No existing version file changes content (in particular none is
overwritten) between two states. -/
def preservesFiles (st st2 : ExpStore) : Prop :=
  ∀ dir v c, getVersionFile st dir v = some c → getVersionFile st2 dir v = some c

/-- A mapping source that the legacy layout can serve. -/
def goodSrc (ld : LegacyDirs) (src : Option (Bucket × JStr)) : Prop :=
  ∀ p, src = some p → ∃ content, readLegacyLD ld p = some content

/-!
## Concrete instances used by counterexamples and witnesses
-/

/-- A well-formed dynamic question element. -/
def c9GoodItem : Json :=
  Json.obj [("field".data, Json.str "duration".data), ("question".data, Json.str "언제였나요?".data)]

/-- An element whose `field` property is the empty string — a string
value, but falsy in JavaScript. -/
def c9BadItem : Json :=
  Json.obj [("field".data, Json.str []), ("question".data, Json.str "q".data)]

/-- The draft body of the end-to-end scenario of claim C6. -/
def c6Body : JStr :=
  "2024년 2월부터 6월까지 React, TypeScript를 사용하여 프로젝트를 진행했습니다".data

/-- The frontmatter of the end-to-end scenario of claim C6. -/
def c6Frontmatter : Frontmatter := [("company".data, Json.str "TechCorp".data)]

/-- The four experiences of the locator scenario (claim C5), dated
2024-01-15, 2024-06-15, 2024-06-20 and 2025-01-10, listed date
descending as `listExperiences` returns them. -/
def locExperiences : List ExperienceDir :=
  [⟨"2025-01-10-delta".data, 2025, 1, 10, "delta".data⟩,
   ⟨"2024-06-20-gamma".data, 2024, 6, 20, "gamma".data⟩,
   ⟨"2024-06-15-beta".data, 2024, 6, 15, "beta".data⟩,
   ⟨"2024-01-15-alpha".data, 2024, 1, 15, "alpha".data⟩]

/-- The January experience alone (for the month-`00` counterexample). -/
def locJanuary : ExperienceDir := ⟨"2024-01-15-alpha".data, 2024, 1, 15, "alpha".data⟩

/-- A completeness input whose `learnings` is one letter followed by 50
spaces: 51 characters raw, 1 character trimmed. -/
def cexTrimInput : CompletenessInput :=
  { learnings := some ('a' :: List.replicate 50 ' ') }

/-- A completeness input whose weighted sum is 56.5: title (10) +
plain-string duration (14) + non-quantitative achievement (17.5) + long
learnings (15). -/
def cexHalfInput : CompletenessInput :=
  { title := some "t".data
    duration := some (Json.str "spring".data)
    achievements := some [Json.str "improved latency a lot".data]
    learnings := some (List.replicate 60 'x') }

/-- A store with one fully-versioned and one draft-only experience. -/
def w1Store : ExpStore :=
  [("2024-06-15-react".data,
    { draft := some "d".data, refined := some "r".data, archived := some "a".data }),
   ("2024-06-16-vue".data, { draft := some "d2".data })]

/-- A legacy layout containing only an in-progress file (no drafts
bucket entry for the same key). -/
def legacyOnlyInProgress : MigState :=
  { legacy := { inProg := some [("2024-06-15-x.md".data, "refined stuff".data)] } }

/-!
# Theorems

Shared helper lemmas first, then one theorem per claim, with
counterexamples and witnesses where required.
-/

theorem validateItemsFrom_all_ok (items : List Json) :
    ∀ (i : Nat) (rest : List Json),
      (∀ item ∈ rest, nonEmptyStringProp item "field".data = true ∧
        nonEmptyStringProp item "question".data = true) →
      validateItemsFrom items i rest = .ok () := by
  intro i rest
  induction rest generalizing i with
  | nil => intro _; rfl
  | cons x xs ih =>
      intro h
      have hx := h x (List.mem_cons_self x xs)
      simp only [validateItemsFrom, hx.1, hx.2, Bool.not_true, Bool.false_eq_true,
        if_false]
      exact ih (i + 1) (fun item hm => h item (List.mem_cons_of_mem _ hm))

theorem validateItemsFrom_err (items : List Json) :
    ∀ (i : Nat) (rest : List Json),
      (∃ item ∈ rest, nonEmptyStringProp item "field".data = false ∨
        nonEmptyStringProp item "question".data = false) →
      ∃ e, validateItemsFrom items i rest = .error e := by
  intro i rest
  induction rest generalizing i with
  | nil =>
      rintro ⟨item, hmem, _⟩
      exact absurd hmem (List.not_mem_nil item)
  | cons x xs ih =>
      rintro ⟨item, hmem, hbad⟩
      by_cases hf : nonEmptyStringProp x "field".data = true
      · by_cases hq : nonEmptyStringProp x "question".data = true
        · rcases List.mem_cons.mp hmem with rfl | hxs
          · rcases hbad with hb | hb
            · exact absurd hf (by simp [hb])
            · exact absurd hq (by simp [hb])
          · obtain ⟨e, he⟩ := ih (i + 1) ⟨item, hxs, hbad⟩
            exact ⟨e, by simp only [validateItemsFrom, hf, hq, Bool.not_true,
              Bool.false_eq_true, if_false]; exact he⟩
        · have hq2 : nonEmptyStringProp x "question".data = false := by
            revert hq; cases nonEmptyStringProp x "question".data <;> simp
          refine ⟨"Question at index ".data ++ natDecimal i ++
            " is missing required \"question\" property".data, ?_⟩
          simp [validateItemsFrom, hf, hq2]
      · have hf2 : nonEmptyStringProp x "field".data = false := by
          revert hf; cases nonEmptyStringProp x "field".data <;> simp
        refine ⟨"Question at index ".data ++ natDecimal i ++
          " is missing required \"field\" property".data, ?_⟩
        simp [validateItemsFrom, hf2]

/-- Claim C9 (amended): `validateDynamicQuestions` rejects unparseable
input, non-array values and arrays longer than 6; an array of length at
most 6 whose elements all carry non-empty string `field` and `question`
properties is returned verbatim; an array containing an element whose
`field` or `question` is missing, non-string or the empty string is
rejected. -/
theorem C9_validateDynamicQuestions :
    (validateDynamicQuestions none =
      .error "Invalid JSON: could not parse questions input".data)
    ∧ (∀ j : Json, (∀ items, j ≠ Json.arr items) →
        validateDynamicQuestions (some j) =
          .error "Questions must be a JSON array".data)
    ∧ (∀ items : List Json, 6 < items.length →
        validateDynamicQuestions (some (.arr items)) =
          .error "Questions exceed maximum of 6".data)
    ∧ (∀ items : List Json, items.length ≤ 6 →
        (∀ item ∈ items, nonEmptyStringProp item "field".data = true ∧
          nonEmptyStringProp item "question".data = true) →
        validateDynamicQuestions (some (.arr items)) = .ok items)
    ∧ (∀ items : List Json,
        (∃ item ∈ items, nonEmptyStringProp item "field".data = false ∨
          nonEmptyStringProp item "question".data = false) →
        ∃ e, validateDynamicQuestions (some (.arr items)) = .error e) := by
  refine ⟨rfl, ?_, ?_, ?_, ?_⟩
  · intro j hj
    cases j with
    | arr items => exact absurd rfl (hj items)
    | null => rfl
    | bool b => rfl
    | num q => rfl
    | str s => rfl
    | obj fields => rfl
  · intro items hlen
    simp [validateDynamicQuestions, maxDynamicQuestions, hlen]
  · intro items hlen hall
    have hok := validateItemsFrom_all_ok items 0 items hall
    simp [validateDynamicQuestions, maxDynamicQuestions, Nat.not_lt.mpr hlen, hok]
  · intro items hbad
    by_cases hlen : 6 < items.length
    · exact ⟨"Questions exceed maximum of 6".data,
        by simp [validateDynamicQuestions, maxDynamicQuestions, hlen]⟩
    · obtain ⟨e, he⟩ := validateItemsFrom_err items 0 items hbad
      exact ⟨e, by simp [validateDynamicQuestions, maxDynamicQuestions, hlen, he]⟩

/-- Counterexample to claim C9 as stated: an element whose `field`
property is present and is a string — the empty string — is rejected,
because the source tests JavaScript truthiness (`!item.field`) before
the type, and the empty string is falsy. -/
theorem C9_cex :
    jsGet c9BadItem "field".data = some (Json.str []) ∧
    jsGet c9BadItem "question".data = some (Json.str "q".data) ∧
    validateDynamicQuestions (some (Json.arr [c9BadItem])) =
      .error ("Question at index 0 is missing required \"field\" property".data) :=
  ⟨rfl, rfl, rfl⟩

/-- Witness for C9: the amended theorem applied at concrete inputs. -/
theorem C9_witness :
    validateDynamicQuestions (some (.arr [c9GoodItem])) = .ok [c9GoodItem] ∧
    validateDynamicQuestions (some (.arr (List.replicate 7 c9GoodItem))) =
      .error "Questions exceed maximum of 6".data ∧
    validateDynamicQuestions (some (Json.num 3)) =
      .error "Questions must be a JSON array".data := by
  refine ⟨?_, ?_, ?_⟩
  · exact C9_validateDynamicQuestions.2.2.2.1 [c9GoodItem] (by decide)
      (fun item hm => by
        rcases List.mem_singleton.mp hm with rfl
        exact ⟨by rfl, by rfl⟩)
  · exact C9_validateDynamicQuestions.2.2.1 (List.replicate 7 c9GoodItem)
      (by simp)
  · exact C9_validateDynamicQuestions.2.1 (Json.num 3)
      (fun items h => Json.noConfusion h)

theorem half_lt_share_iff (k t : Nat) (ht : 0 < t) :
    (Rat.divInt 1 2 < Rat.divInt (k : Int) (t : Int)) ↔ t < 2 * k := by
  rw [Rat.divInt_eq_div, Rat.divInt_eq_div]
  rw [div_lt_div_iff₀ (by norm_num) (by exact_mod_cast ht)]
  constructor
  · intro h
    have : (t : ℚ) < 2 * k := by push_cast at h ⊢; linarith
    exact_mod_cast this
  · intro h
    have : (t : ℚ) < 2 * k := by exact_mod_cast h
    push_cast
    linarith

theorem share_lt_fifth_iff (k t : Nat) (ht : 0 < t) :
    (Rat.divInt (k : Int) (t : Int) < Rat.divInt 1 5) ↔ 5 * k < t := by
  rw [Rat.divInt_eq_div, Rat.divInt_eq_div]
  rw [div_lt_div_iff₀ (by exact_mod_cast ht) (by norm_num)]
  constructor
  · intro h
    have : (5 : ℚ) * k < t := by push_cast at h ⊢; linarith
    exact_mod_cast this
  · intro h
    have : (5 : ℚ) * k < t := by exact_mod_cast h
    push_cast
    linarith

theorem detectLanguage_eq (text : JStr) :
    detectLanguage text =
      (if (text.filter isKoreanChar).length +
            (text.filter (fun c => !isKoreanChar c && isLatinChar c)).length = 0 then
        Language.english
       else if (text.filter isKoreanChar).length +
            (text.filter (fun c => !isKoreanChar c && isLatinChar c)).length <
            2 * (text.filter isKoreanChar).length then Language.korean
       else if 5 * (text.filter isKoreanChar).length <
            (text.filter isKoreanChar).length +
            (text.filter (fun c => !isKoreanChar c && isLatinChar c)).length then
        Language.english
       else Language.mixed) := by
  unfold detectLanguage
  set k := (text.filter isKoreanChar).length with hk
  set l := (text.filter (fun c => !isKoreanChar c && isLatinChar c)).length with hl
  by_cases h0 : k + l = 0
  · rw [if_pos h0, if_pos h0]
  · have hpos : 0 < k + l := Nat.pos_of_ne_zero h0
    rw [if_neg h0, if_neg h0]
    by_cases hc1 : Rat.divInt 1 2 < Rat.divInt (k : Int) ((k + l : Nat) : Int)
    · rw [if_pos hc1, if_pos ((half_lt_share_iff k (k + l) hpos).mp hc1)]
    · rw [if_neg hc1,
        if_neg (fun hcc => hc1 ((half_lt_share_iff k (k + l) hpos).mpr hcc))]
      by_cases hc2 : Rat.divInt (k : Int) ((k + l : Nat) : Int) < Rat.divInt 1 5
      · rw [if_pos hc2, if_pos ((share_lt_fifth_iff k (k + l) hpos).mp hc2)]
      · rw [if_neg hc2,
          if_neg (fun hcc => hc2 ((share_lt_fifth_iff k (k + l) hpos).mpr hcc))]

/-- Claim C7: `detectLanguage` counts Hangul-range versus ASCII-letter
characters and returns KOREAN when the Korean ratio exceeds one half,
ENGLISH when it is below one fifth, MIXED otherwise, and ENGLISH when no
character was counted; and the concrete date-only string is ENGLISH. -/
theorem C7_detectLanguage :
    (∀ text : JStr,
      (((text.filter isKoreanChar).length +
          (text.filter (fun c => !isKoreanChar c && isLatinChar c)).length = 0) →
        detectLanguage text = Language.english)
      ∧ (∀ k l : Nat, k = (text.filter isKoreanChar).length →
          l = (text.filter (fun c => !isKoreanChar c && isLatinChar c)).length →
          0 < k + l →
          ((detectLanguage text = Language.korean ↔ k + l < 2 * k)
           ∧ (detectLanguage text = Language.english ↔ 5 * k < k + l)
           ∧ (detectLanguage text = Language.mixed ↔
                2 * k ≤ k + l ∧ k + l ≤ 5 * k))))
    ∧ detectLanguage "2024-02-01 → 2024-06-30 (100%)".data = Language.english := by
  constructor
  · intro text
    rw [detectLanguage_eq text]
    constructor
    · intro h0
      rw [if_pos h0]
    · intro k l hk hl hpos
      rw [← hk, ← hl] at *
      have h0 : ¬(k + l = 0) := Nat.pos_iff_ne_zero.mp hpos
      rw [if_neg h0]
      refine ⟨?_, ?_, ?_⟩ <;> constructor <;> intro h <;>
        first
          | (split_ifs at h <;> simp_all <;> omega)
          | (split_ifs <;> simp_all <;> omega)
  · decide

/-- Witness for C7: a majority-Hangul string is KOREAN, via the theorem
applied at that string. -/
theorem C7_witness : detectLanguage "한글입니다 ok".data = Language.korean := by
  have h := (C7_detectLanguage.1 "한글입니다 ok".data).2 5 2 (by decide) (by decide) (by decide)
  exact h.1.mpr (by decide)

theorem storeGet_map_update (dir : JStr) (f : ExpFiles) :
    ∀ st : ExpStore, (st.find? (fun p => p.1 = dir)).isSome = true →
      storeGet (st.map (fun p => if p.1 = dir then (dir, f) else p)) dir = some f := by
  intro st
  induction st with
  | nil => intro h; simp at h
  | cons p rest ih =>
      intro h
      by_cases hp : p.1 = dir
      · simp [storeGet, List.find?_cons, hp]
      · rw [List.find?_cons] at h
        simp only [hp, decide_eq_true_eq, decide_eq_false hp] at h
        have := ih h
        simpa [storeGet, List.find?_cons, hp] using this

theorem storeGet_append_new (dir : JStr) (f : ExpFiles) :
    ∀ st : ExpStore, ¬ (st.find? (fun p => p.1 = dir)).isSome = true →
      storeGet (st ++ [(dir, f)]) dir = some f := by
  intro st
  induction st with
  | nil => intro _; simp [storeGet, List.find?_cons]
  | cons p rest ih =>
      intro h
      rw [List.find?_cons] at h
      by_cases hp : p.1 = dir
      · exact absurd (by simp [decide_eq_true hp]) h
      · simp only [decide_eq_false hp] at h
        have := ih h
        simpa [storeGet, List.cons_append, List.find?_cons, hp] using this

theorem storeGet_storeSet_self (st : ExpStore) (dir : JStr) (f : ExpFiles) :
    storeGet (storeSet st dir f) dir = some f := by
  unfold storeSet
  by_cases h : (st.find? (fun p => p.1 = dir)).isSome
  · rw [if_pos h]
    exact storeGet_map_update dir f st h
  · rw [if_neg h]
    exact storeGet_append_new dir f st h

theorem storeGet_map_update_other (dir dir2 : JStr) (f : ExpFiles) (hne : dir2 ≠ dir) :
    ∀ st : ExpStore,
      storeGet (st.map (fun p => if p.1 = dir then (dir, f) else p)) dir2 =
        storeGet st dir2 := by
  intro st
  induction st with
  | nil => rfl
  | cons p rest ih =>
      simp only [List.map_cons]
      by_cases hp : p.1 = dir
      · rw [if_pos hp]
        unfold storeGet
        rw [List.find?_cons, List.find?_cons]
        have h1 : decide ((dir, f).1 = dir2) = false :=
          decide_eq_false (fun hd => hne hd.symm)
        have h2 : decide (p.1 = dir2) = false :=
          decide_eq_false (fun hd => hne (hd.symm.trans hp))
        rw [h1, h2]
        exact ih
      · rw [if_neg hp]
        unfold storeGet
        rw [List.find?_cons, List.find?_cons]
        by_cases hp2 : p.1 = dir2
        · rw [decide_eq_true hp2]
        · simp only [decide_eq_false hp2]
          exact ih

theorem storeGet_storeSet_other (st : ExpStore) (dir dir2 : JStr) (f : ExpFiles)
    (hne : dir2 ≠ dir) : storeGet (storeSet st dir f) dir2 = storeGet st dir2 := by
  unfold storeSet
  by_cases h : (st.find? (fun p => p.1 = dir)).isSome
  · rw [if_pos h]
    exact storeGet_map_update_other dir dir2 f hne st
  · rw [if_neg h]
    unfold storeGet
    rw [List.find?_append]
    have : List.find? (fun p => decide (p.1 = dir2)) [(dir, f)] = none := by
      simp [List.find?_cons, Ne.symm hne]
    simp [this]

/-- Claim C1: the repository's version guards. Adding a refined version
fails with the already-exists error when `refined.md` is present (so a
second `addRefined` on the same experience fails); adding an archived
version fails when the experience directory is missing, when
`refined.md` is missing (the refined-prerequisite error), or when
`archived.md` already exists; and every failing call returns the store
unchanged — no version file is written or modified. -/
theorem C1_version_guards :
    ∀ (st : ExpStore) (dir c : JStr),
      (∀ f, storeGet st dir = some f → f.refined.isSome = true →
        addRefinedVersion st dir c = (st, some (RepoError.refinedExists dir)))
      ∧ (storeGet st dir = none →
          addRefinedVersion st dir c = (st, some (RepoError.notFound dir)))
      ∧ (storeGet st dir = none →
          addArchivedVersion st dir c = (st, some (RepoError.notFound dir)))
      ∧ (∀ f, storeGet st dir = some f → f.refined = none →
          addArchivedVersion st dir c = (st, some (RepoError.noRefinedVersion dir)))
      ∧ (∀ f, storeGet st dir = some f → f.refined.isSome = true →
          f.archived.isSome = true →
          addArchivedVersion st dir c = (st, some (RepoError.archivedExists dir)))
      ∧ (∀ c2, (addRefinedVersion st dir c).2 = none →
          addRefinedVersion (addRefinedVersion st dir c).1 dir c2 =
            ((addRefinedVersion st dir c).1, some (RepoError.refinedExists dir))) := by
  intro st dir c
  refine ⟨?_, ?_, ?_, ?_, ?_, ?_⟩
  · intro f hget href
    simp [addRefinedVersion, hget, href]
  · intro hget
    simp [addRefinedVersion, hget]
  · intro hget
    simp [addArchivedVersion, hget]
  · intro f hget href
    simp [addArchivedVersion, hget, href]
  · intro f hget href harch
    have hrefN : ¬ f.refined.isNone := by simp [Option.isNone_iff_eq_none]; intro hh; simp [hh] at href
    simp [addArchivedVersion, hget, Option.isNone_iff_eq_none.not.mpr ?_, harch]
    · intro hh
      simp [hh] at href
  · intro c2 hok
    match hget : storeGet st dir with
    | none => simp [addRefinedVersion, hget] at hok
    | some files =>
        by_cases href : files.refined.isSome
        · simp [addRefinedVersion, hget, href] at hok
        · have hst1 : (addRefinedVersion st dir c).1 =
              storeSet st dir { files with refined := some c } := by
            simp [addRefinedVersion, hget, href]
          have hget2 : storeGet (addRefinedVersion st dir c).1 dir =
              some { files with refined := some c } := by
            rw [hst1]; exact storeGet_storeSet_self st dir _
          set s1 := (addRefinedVersion st dir c).1 with hs1
          simp [addRefinedVersion, hget2]

/-- Witness for C1: the guards applied at a concrete store with one
fully-versioned experience (`react`) and one draft-only experience
(`vue`). -/
theorem C1_witness :
    addRefinedVersion w1Store "2024-06-15-react".data "x".data =
      (w1Store, some (RepoError.refinedExists "2024-06-15-react".data))
    ∧ addArchivedVersion w1Store "2099-01-01-nope".data "x".data =
      (w1Store, some (RepoError.notFound "2099-01-01-nope".data))
    ∧ addArchivedVersion w1Store "2024-06-16-vue".data "x".data =
      (w1Store, some (RepoError.noRefinedVersion "2024-06-16-vue".data))
    ∧ addArchivedVersion w1Store "2024-06-15-react".data "x".data =
      (w1Store, some (RepoError.archivedExists "2024-06-15-react".data))
    ∧ addRefinedVersion (addRefinedVersion w1Store "2024-06-16-vue".data "r2".data).1
        "2024-06-16-vue".data "r3".data =
      ((addRefinedVersion w1Store "2024-06-16-vue".data "r2".data).1,
        some (RepoError.refinedExists "2024-06-16-vue".data)) := by
  refine ⟨?_, ?_, ?_, ?_, ?_⟩
  · exact (C1_version_guards w1Store "2024-06-15-react".data "x".data).1
      { draft := some "d".data, refined := some "r".data, archived := some "a".data }
      (by rfl) (by rfl)
  · exact (C1_version_guards w1Store "2099-01-01-nope".data "x".data).2.2.1 (by rfl)
  · exact (C1_version_guards w1Store "2024-06-16-vue".data "x".data).2.2.2.1
      { draft := some "d2".data } (by rfl) (by rfl)
  · exact (C1_version_guards w1Store "2024-06-15-react".data "x".data).2.2.2.2.1
      { draft := some "d".data, refined := some "r".data, archived := some "a".data }
      (by rfl) (by rfl) (by rfl)
  · exact (C1_version_guards w1Store "2024-06-16-vue".data "r2".data).2.2.2.2.2
      "r3".data (by rfl)

theorem mem_if_singleton (s t : JStr) (b : Bool) :
    (s ∈ (if b then [t] else [])) ↔ (b = true ∧ s = t) := by
  cases b <;> simp

theorem bool_not_true (b : Bool) (h : (!b) = true) : b = false := by
  cases b
  · rfl
  · exact absurd h (by simp)

theorem band_not_parts (a b : Bool) (h : (a && !b) = true) : a = true ∧ b = false := by
  cases a <;> cases b <;> simp_all

theorem sublist_segment (b : Bool) (s : JStr) (rest restOrder : List JStr)
    (h : List.Sublist rest restOrder) :
    List.Sublist ((if b then [s] else []) ++ rest) (s :: restOrder) := by
  cases b
  · exact List.Sublist.cons s h
  · exact List.Sublist.cons₂ s h

theorem sublist_segment_last (b : Bool) (s : JStr) :
    List.Sublist (if b then [s] else []) [s] := by
  cases b
  · exact List.nil_sublist [s]
  · exact List.Sublist.refl [s]

theorem suggestions_unfold (data : CompletenessInput) :
    (calculateCompleteness data).suggestions =
      (if !(jsOptTruthy data.duration) then [sugDuration] else [])
      ++ ((if achievementsPresent data.achievements &&
            !(hasQuantitativeAchievement data.achievements) then [sugAchQuant] else [])
      ++ ((if !(achievementsPresent data.achievements) then [sugAchievements] else [])
      ++ ((if !(technologiesPresent data.technologies) then [sugTechnologies] else [])
      ++ ((if !(jsStrPresent data.learnings) then [sugLearnings] else [])
      ++ (if !(jsStrPresent data.project) then [sugProject] else []))))) := by
  simp only [calculateCompleteness, achievementsPresent, technologiesPresent,
    hasQuantitativeAchievement, List.append_assoc]

/-- Claim C4 (amended): the suggestions list contains one fixed advisory
string for each of the five fields duration, achievements, technologies,
learnings and project that is absent, plus one for achievements when
present but not quantitative; an absent title or reflections produces no
suggestion; and the list follows the fixed field order (it is a sublist
of `suggestionOrder`), independent of weight contributions. -/
theorem C4_suggestions (data : CompletenessInput) :
    List.Sublist (calculateCompleteness data).suggestions suggestionOrder
    ∧ (sugDuration ∈ (calculateCompleteness data).suggestions ↔
        jsOptTruthy data.duration = false)
    ∧ (sugAchQuant ∈ (calculateCompleteness data).suggestions ↔
        achievementsPresent data.achievements = true ∧
          hasQuantitativeAchievement data.achievements = false)
    ∧ (sugAchievements ∈ (calculateCompleteness data).suggestions ↔
        achievementsPresent data.achievements = false)
    ∧ (sugTechnologies ∈ (calculateCompleteness data).suggestions ↔
        technologiesPresent data.technologies = false)
    ∧ (sugLearnings ∈ (calculateCompleteness data).suggestions ↔
        jsStrPresent data.learnings = false)
    ∧ (sugProject ∈ (calculateCompleteness data).suggestions ↔
        jsStrPresent data.project = false) := by
  rw [suggestions_unfold data]
  have d1 : sugDuration ≠ sugAchQuant := by decide
  have d2 : sugDuration ≠ sugAchievements := by decide
  have d3 : sugDuration ≠ sugTechnologies := by decide
  have d4 : sugDuration ≠ sugLearnings := by decide
  have d5 : sugDuration ≠ sugProject := by decide
  have d6 : sugAchQuant ≠ sugAchievements := by decide
  have d7 : sugAchQuant ≠ sugTechnologies := by decide
  have d8 : sugAchQuant ≠ sugLearnings := by decide
  have d9 : sugAchQuant ≠ sugProject := by decide
  have d10 : sugAchievements ≠ sugTechnologies := by decide
  have d11 : sugAchievements ≠ sugLearnings := by decide
  have d12 : sugAchievements ≠ sugProject := by decide
  have d13 : sugTechnologies ≠ sugLearnings := by decide
  have d14 : sugTechnologies ≠ sugProject := by decide
  have d15 : sugLearnings ≠ sugProject := by decide
  refine ⟨?_, ?_, ?_, ?_, ?_, ?_, ?_⟩
  · unfold suggestionOrder
    exact sublist_segment _ _ _ _ (sublist_segment _ _ _ _ (sublist_segment _ _ _ _
      (sublist_segment _ _ _ _ (sublist_segment _ _ _ _ (sublist_segment_last _ _)))))
  · simp only [List.mem_append, mem_if_singleton]
    constructor
    · rintro (⟨hb, _⟩ | ⟨_, he⟩ | ⟨_, he⟩ | ⟨_, he⟩ | ⟨_, he⟩ | ⟨_, he⟩)
      · exact bool_not_true _ hb
      · exact absurd he d1
      · exact absurd he d2
      · exact absurd he d3
      · exact absurd he d4
      · exact absurd he d5
    · intro h; exact Or.inl ⟨by simp [h], by trivial⟩
  · simp only [List.mem_append, mem_if_singleton]
    constructor
    · rintro (⟨_, he⟩ | ⟨hb, _⟩ | ⟨_, he⟩ | ⟨_, he⟩ | ⟨_, he⟩ | ⟨_, he⟩)
      · exact absurd he.symm d1
      · exact band_not_parts _ _ hb
      · exact absurd he d6
      · exact absurd he d7
      · exact absurd he d8
      · exact absurd he d9
    · rintro ⟨h1, h2⟩; exact Or.inr (Or.inl ⟨by simp [h1, h2], by trivial⟩)
  · simp only [List.mem_append, mem_if_singleton]
    constructor
    · rintro (⟨_, he⟩ | ⟨_, he⟩ | ⟨hb, _⟩ | ⟨_, he⟩ | ⟨_, he⟩ | ⟨_, he⟩)
      · exact absurd he.symm d2
      · exact absurd he.symm d6
      · exact bool_not_true _ hb
      · exact absurd he d10
      · exact absurd he d11
      · exact absurd he d12
    · intro h; exact Or.inr (Or.inr (Or.inl ⟨by simp [h], by trivial⟩))
  · simp only [List.mem_append, mem_if_singleton]
    constructor
    · rintro (⟨_, he⟩ | ⟨_, he⟩ | ⟨_, he⟩ | ⟨hb, _⟩ | ⟨_, he⟩ | ⟨_, he⟩)
      · exact absurd he.symm d3
      · exact absurd he.symm d7
      · exact absurd he.symm d10
      · exact bool_not_true _ hb
      · exact absurd he d13
      · exact absurd he d14
    · intro h; exact Or.inr (Or.inr (Or.inr (Or.inl ⟨by simp [h], by trivial⟩)))
  · simp only [List.mem_append, mem_if_singleton]
    constructor
    · rintro (⟨_, he⟩ | ⟨_, he⟩ | ⟨_, he⟩ | ⟨_, he⟩ | ⟨hb, _⟩ | ⟨_, he⟩)
      · exact absurd he.symm d4
      · exact absurd he.symm d8
      · exact absurd he.symm d11
      · exact absurd he.symm d13
      · exact bool_not_true _ hb
      · exact absurd he d15
    · intro h; exact Or.inr (Or.inr (Or.inr (Or.inr (Or.inl ⟨by simp [h], by trivial⟩))))
  · simp only [List.mem_append, mem_if_singleton]
    constructor
    · rintro (⟨_, he⟩ | ⟨_, he⟩ | ⟨_, he⟩ | ⟨_, he⟩ | ⟨_, he⟩ | ⟨hb, _⟩)
      · exact absurd he.symm d5
      · exact absurd he.symm d9
      · exact absurd he.symm d12
      · exact absurd he.symm d14
      · exact absurd he.symm d15
      · exact bool_not_true _ hb
    · intro h; exact Or.inr (Or.inr (Or.inr (Or.inr (Or.inr ⟨by simp [h], by trivial⟩))))

/-- Counterexample to claim C4 as stated: with all seven weighted fields
absent, the code emits five advisory strings, not seven — an absent
`title` or `reflections` never produces a suggestion. -/
theorem C4_cex :
    (calculateCompleteness {}).suggestions =
      [sugDuration, sugAchievements, sugTechnologies, sugLearnings, sugProject]
    ∧ (calculateCompleteness {}).suggestions.length = 5
    ∧ ¬ (calculateCompleteness {}).suggestions.length = 7 := by
  refine ⟨rfl, rfl, by decide⟩

/-- Witness for C4: the characterization applied at the all-absent
input. -/
theorem C4_witness :
    sugDuration ∈ (calculateCompleteness {}).suggestions
    ∧ List.Sublist (calculateCompleteness {}).suggestions suggestionOrder :=
  ⟨(C4_suggestions {}).2.1.mpr rfl, (C4_suggestions {}).1⟩

theorem ratFloor_eq_intFloor (q : ℚ) : Rat.floor q = ⌊q⌋ :=
  (Rat.floor_def' q).trans Rat.floor_def.symm

theorem jsMathRound_eq_round (x : ℚ) : jsMathRound x = round x := by
  unfold jsMathRound
  rw [ratFloor_eq_intFloor, round_eq]
  norm_num [Rat.divInt_eq_div]

theorem jsRoundScaled_table (k : Fin 201) :
    jsRoundScaled (Rat.divInt (k.val : Int) 2) =
      jsMathRound (Rat.divInt (k.val : Int) 2) -
        (if scaledRoundingLoss (Rat.divInt (k.val : Int) 2) then 1 else 0) := by
  revert k
  decide

theorem jsRoundScaled_bounds (k : Fin 201) :
    0 ≤ jsRoundScaled (Rat.divInt (k.val : Int) 2) ∧
      jsRoundScaled (Rat.divInt (k.val : Int) 2) ≤ 100 := by
  revert k
  decide

theorem isHalfNat_add (a b : Nat) (x y : ℚ) (hx : IsHalfNat a x) (hy : IsHalfNat b y) :
    IsHalfNat (a + b) (x + y) := by
  obtain ⟨n, hn, rfl⟩ := hx
  obtain ⟨m, hm, rfl⟩ := hy
  refine ⟨n + m, by omega, ?_⟩
  rw [Rat.divInt_eq_div, Rat.divInt_eq_div, Rat.divInt_eq_div]
  push_cast
  ring

theorem claimTitleQuality_cases (t : Option JStr) :
    claimTitleQuality t = 0 ∨ claimTitleQuality t = 1 := by
  unfold claimTitleQuality
  split_ifs <;> simp

theorem claimDurationQuality_cases (d : Option Json) :
    claimDurationQuality d = 0 ∨ claimDurationQuality d = Rat.divInt 7 10 ∨
      claimDurationQuality d = 1 := by
  unfold claimDurationQuality
  split_ifs <;> simp

theorem claimAchievementsQuality_cases (a : Option (List Json)) :
    claimAchievementsQuality a = 0 ∨ claimAchievementsQuality a = Rat.divInt 7 10 ∨
      claimAchievementsQuality a = 1 := by
  unfold claimAchievementsQuality
  split_ifs <;> simp

theorem claimTechnologiesQuality_cases (a : Option (List Json)) :
    claimTechnologiesQuality a = 0 ∨ claimTechnologiesQuality a = Rat.divInt 7 10 ∨
      claimTechnologiesQuality a = 1 := by
  unfold claimTechnologiesQuality
  split_ifs <;> simp

theorem amendedLearningsQuality_cases (l : Option JStr) :
    amendedLearningsQuality l = 0 ∨ amendedLearningsQuality l = Rat.divInt 7 10 ∨
      amendedLearningsQuality l = 1 := by
  unfold amendedLearningsQuality
  split_ifs <;> simp

theorem claimProjectQuality_cases (p : Option JStr) :
    claimProjectQuality p = 0 ∨ claimProjectQuality p = 1 := by
  unfold claimProjectQuality
  split_ifs <;> simp

theorem claimReflectionsQuality_cases (r : Option JStr) :
    claimReflectionsQuality r = 0 ∨ claimReflectionsQuality r = 1 := by
  unfold claimReflectionsQuality
  split_ifs <;> simp

theorem breakdown_title_eq (data : CompletenessInput) :
    (calculateCompleteness data).breakdown.title.qualityScore =
      claimTitleQuality data.title := rfl

theorem breakdown_duration_eq (data : CompletenessInput) :
    (calculateCompleteness data).breakdown.duration.qualityScore =
      claimDurationQuality data.duration := by
  show (let hasDuration := jsOptTruthy data.duration
        let base : ℚ := if hasDuration then Rat.divInt 7 10 else 0
        match data.duration with
        | some (Json.obj fs) =>
            if hasDuration && jsOptTruthy (jsGet (.obj fs) "start".data) &&
                jsOptTruthy (jsGet (.obj fs) "end".data) then 1 else base
        | _ => base) = claimDurationQuality data.duration
  cases hd : data.duration with
  | none => simp [claimDurationQuality, jsOptTruthy]
  | some v =>
      cases v <;>
        simp [claimDurationQuality, durationHasStartEnd, jsOptTruthy, jsTruthy]

theorem breakdown_achievements_eq (data : CompletenessInput) :
    (calculateCompleteness data).breakdown.achievements.qualityScore =
      claimAchievementsQuality data.achievements := rfl

theorem breakdown_technologies_eq (data : CompletenessInput) :
    (calculateCompleteness data).breakdown.technologies.qualityScore =
      claimTechnologiesQuality data.technologies := rfl

theorem breakdown_learnings_eq (data : CompletenessInput) :
    (calculateCompleteness data).breakdown.learnings.qualityScore =
      amendedLearningsQuality data.learnings := rfl

theorem breakdown_project_eq (data : CompletenessInput) :
    (calculateCompleteness data).breakdown.project.qualityScore =
      claimProjectQuality data.project := rfl

theorem breakdown_reflections_eq (data : CompletenessInput) :
    (calculateCompleteness data).breakdown.reflections.qualityScore =
      claimReflectionsQuality data.reflections := rfl

theorem weightedScoreOf_eq_amended (data : CompletenessInput) :
    weightedScoreOf data = amendedWeightedSum data := by
  obtain ⟨t, d, a, te, l, p, r⟩ := data
  simp only [weightedScoreOf, amendedWeightedSum]
  congr 1
  · congr 1
    · congr 1
      · congr 1
        · congr 1
          · congr 1
            · cases h : jsStrPresent t <;> simp [claimTitleQuality, h]
            · cases hd : jsOptTruthy d
              · simp [claimDurationQuality, hd]
              · cases d with
                | none => simp [jsOptTruthy] at hd
                | some v =>
                    cases v with
                    | null => simp [jsOptTruthy, jsTruthy] at hd
                    | bool b =>
                        simp [jsOptTruthy, jsTruthy] at hd
                        simp [claimDurationQuality, durationHasStartEnd, jsOptTruthy,
                          jsTruthy, hd]
                    | num q =>
                        simp [jsOptTruthy, jsTruthy] at hd
                        simp [claimDurationQuality, durationHasStartEnd, jsOptTruthy,
                          jsTruthy, hd]
                    | str s =>
                        simp [jsOptTruthy, jsTruthy] at hd
                        simp [claimDurationQuality, durationHasStartEnd, jsOptTruthy,
                          jsTruthy, hd]
                    | arr xs =>
                        simp [claimDurationQuality, durationHasStartEnd, jsOptTruthy,
                          jsTruthy]
                    | obj fs =>
                        simp [claimDurationQuality, durationHasStartEnd, jsOptTruthy,
                          jsTruthy]
          · cases a with
            | none => simp [claimAchievementsQuality, achievementsPresent]
            | some lst =>
                cases h : decide (0 < lst.length) <;>
                  simp [claimAchievementsQuality, achievementsPresent,
                    hasQuantitativeAchievement, h]
        · cases te with
          | none => simp [claimTechnologiesQuality, technologiesPresent]
          | some lst =>
              cases h : decide (0 < lst.length) <;>
                simp [claimTechnologiesQuality, technologiesPresent, h]
      · cases h : jsStrPresent l <;> simp [amendedLearningsQuality, h]
    · cases h : jsStrPresent p <;> simp [claimProjectQuality, h]
  · cases h : jsStrPresent r <;> simp [claimReflectionsQuality, h]

theorem isHalfNat_weightedScore (data : CompletenessInput) :
    IsHalfNat 200 (weightedScoreOf data) := by
  rw [weightedScoreOf_eq_amended]
  unfold amendedWeightedSum
  have h1 : IsHalfNat 20 (weightTitle * claimTitleQuality data.title) := by
    rcases claimTitleQuality_cases data.title with h | h <;> rw [h]
    · exact ⟨0, by omega, by decide⟩
    · exact ⟨20, by omega, by decide⟩
  have h2 : IsHalfNat 40 (weightDuration * claimDurationQuality data.duration) := by
    rcases claimDurationQuality_cases data.duration with h | h | h <;> rw [h]
    · exact ⟨0, by omega, by decide⟩
    · exact ⟨28, by omega, by decide⟩
    · exact ⟨40, by omega, by decide⟩
  have h3 : IsHalfNat 50 (weightAchievements * claimAchievementsQuality data.achievements) := by
    rcases claimAchievementsQuality_cases data.achievements with h | h | h <;> rw [h]
    · exact ⟨0, by omega, by decide⟩
    · exact ⟨35, by omega, by decide⟩
    · exact ⟨50, by omega, by decide⟩
  have h4 : IsHalfNat 30 (weightTechnologies * claimTechnologiesQuality data.technologies) := by
    rcases claimTechnologiesQuality_cases data.technologies with h | h | h <;> rw [h]
    · exact ⟨0, by omega, by decide⟩
    · exact ⟨21, by omega, by decide⟩
    · exact ⟨30, by omega, by decide⟩
  have h5 : IsHalfNat 30 (weightLearnings * amendedLearningsQuality data.learnings) := by
    rcases amendedLearningsQuality_cases data.learnings with h | h | h <;> rw [h]
    · exact ⟨0, by omega, by decide⟩
    · exact ⟨21, by omega, by decide⟩
    · exact ⟨30, by omega, by decide⟩
  have h6 : IsHalfNat 20 (weightProject * claimProjectQuality data.project) := by
    rcases claimProjectQuality_cases data.project with h | h <;> rw [h]
    · exact ⟨0, by omega, by decide⟩
    · exact ⟨20, by omega, by decide⟩
  have h7 : IsHalfNat 10 (weightReflections * claimReflectionsQuality data.reflections) := by
    rcases claimReflectionsQuality_cases data.reflections with h | h <;> rw [h]
    · exact ⟨0, by omega, by decide⟩
    · exact ⟨10, by omega, by decide⟩
  exact isHalfNat_add 190 10 _ _
    (isHalfNat_add 170 20 _ _
      (isHalfNat_add 140 30 _ _
        (isHalfNat_add 110 30 _ _
          (isHalfNat_add 60 50 _ _ (isHalfNat_add 20 40 _ _ h1 h2) h3) h4) h5) h6) h7

theorem totalWeight_eq : totalWeight = 100 := by
  norm_num [totalWeight, weightTitle, weightDuration, weightAchievements,
    weightTechnologies, weightLearnings, weightProject, weightReflections]

theorem score_eq_round_amended (data : CompletenessInput) :
    (calculateCompleteness data).score =
      round (amendedWeightedSum data) -
        (if scaledRoundingLoss (amendedWeightedSum data) then 1 else 0) := by
  have hw : weightedScoreOf data = amendedWeightedSum data :=
    weightedScoreOf_eq_amended data
  obtain ⟨n, hn, hval⟩ := isHalfNat_weightedScore data
  have hval' : amendedWeightedSum data = Rat.divInt (n : Int) 2 := by
    rw [← hw]; exact hval
  have hs : (calculateCompleteness data).score =
      jsRoundScaled (weightedScoreOf data) := rfl
  rw [hs, hw, hval']
  have htab := jsRoundScaled_table ⟨n, by omega⟩
  simpa [jsMathRound_eq_round] using htab

/-- Claim C3, amended. The score returned by `calculateCompleteness` is the
claimed `round (100 * Σ (weight * quality) / Σ weight)` with two corrections:
the full learnings bonus tests the trimmed text (`amendedWeightedSum` versus
the claim's `claimWeightedSum`), and at the four half-integer weighted sums of
`scaledRoundingLoss` the `Math.round((weightedScore / 100) * 100)` evaluation
in binary64 floats lands one below the exact rounding. Each per-field quality
in the returned breakdown is exactly the (amended) claimed quality. -/
theorem C3_scoring (data : CompletenessInput) :
    (calculateCompleteness data).score =
      round (100 * amendedWeightedSum data / totalWeight) -
        (if scaledRoundingLoss (amendedWeightedSum data) then 1 else 0)
    ∧ (calculateCompleteness data).breakdown.title.qualityScore =
        claimTitleQuality data.title
    ∧ (calculateCompleteness data).breakdown.duration.qualityScore =
        claimDurationQuality data.duration
    ∧ (calculateCompleteness data).breakdown.achievements.qualityScore =
        claimAchievementsQuality data.achievements
    ∧ (calculateCompleteness data).breakdown.technologies.qualityScore =
        claimTechnologiesQuality data.technologies
    ∧ (calculateCompleteness data).breakdown.learnings.qualityScore =
        amendedLearningsQuality data.learnings
    ∧ (calculateCompleteness data).breakdown.project.qualityScore =
        claimProjectQuality data.project
    ∧ (calculateCompleteness data).breakdown.reflections.qualityScore =
        claimReflectionsQuality data.reflections := by
  refine ⟨?_, breakdown_title_eq data, breakdown_duration_eq data,
    breakdown_achievements_eq data, breakdown_technologies_eq data,
    breakdown_learnings_eq data, breakdown_project_eq data,
    breakdown_reflections_eq data⟩
  have htw : (100 : ℚ) * amendedWeightedSum data / totalWeight =
      amendedWeightedSum data := by
    rw [totalWeight_eq, mul_comm, mul_div_assoc]
    norm_num
  rw [htw]
  exact score_eq_round_amended data

/-- Claim C3, counterexample to the claim as written. On `cexTrimInput`
(whose raw learnings text has 51 characters but trims to 1), the claimed
quality is the full 1 while the code returns the base 7/10; and on
`cexHalfInput` (weighted sum 56.5) the claimed score is 57 while the code
returns 56, because `(56.5 / 100) * 100` in binary64 is just below 56.5. -/
theorem C3_cex :
    claimLearningsQuality cexTrimInput.learnings = 1
    ∧ 50 < (cexTrimInput.learnings.getD []).length
    ∧ (calculateCompleteness cexTrimInput).breakdown.learnings.qualityScore =
        Rat.divInt 7 10
    ∧ claimScoreC3 cexHalfInput = 57
    ∧ (calculateCompleteness cexHalfInput).score = 56 := by
  refine ⟨by decide, by decide, by decide, ?_, by decide⟩
  have hws : claimWeightedSum cexHalfInput = Rat.divInt 113 2 := by decide
  unfold claimScoreC3
  rw [hws, totalWeight_eq]
  have h1 : (100 : ℚ) * Rat.divInt 113 2 / 100 = 113 / 2 := by
    rw [Rat.divInt_eq_div]
    push_cast
    ring
  rw [h1, round_eq]
  norm_num

/-- Claim C10. For every input, the score returned by
`calculateCompleteness` lies in `[0, 100]` and each of the seven per-field
quality scores of the returned breakdown lies in `[0, 1]`. -/
theorem C10_bounds (data : CompletenessInput) :
    (0 ≤ (calculateCompleteness data).score ∧
      (calculateCompleteness data).score ≤ 100)
    ∧ (0 ≤ (calculateCompleteness data).breakdown.title.qualityScore ∧
        (calculateCompleteness data).breakdown.title.qualityScore ≤ 1)
    ∧ (0 ≤ (calculateCompleteness data).breakdown.duration.qualityScore ∧
        (calculateCompleteness data).breakdown.duration.qualityScore ≤ 1)
    ∧ (0 ≤ (calculateCompleteness data).breakdown.achievements.qualityScore ∧
        (calculateCompleteness data).breakdown.achievements.qualityScore ≤ 1)
    ∧ (0 ≤ (calculateCompleteness data).breakdown.technologies.qualityScore ∧
        (calculateCompleteness data).breakdown.technologies.qualityScore ≤ 1)
    ∧ (0 ≤ (calculateCompleteness data).breakdown.learnings.qualityScore ∧
        (calculateCompleteness data).breakdown.learnings.qualityScore ≤ 1)
    ∧ (0 ≤ (calculateCompleteness data).breakdown.project.qualityScore ∧
        (calculateCompleteness data).breakdown.project.qualityScore ≤ 1)
    ∧ (0 ≤ (calculateCompleteness data).breakdown.reflections.qualityScore ∧
        (calculateCompleteness data).breakdown.reflections.qualityScore ≤ 1) := by
  refine ⟨?_, ?_, ?_, ?_, ?_, ?_, ?_, ?_⟩
  · obtain ⟨n, hn, hval⟩ := isHalfNat_weightedScore data
    have hs : (calculateCompleteness data).score =
        jsRoundScaled (weightedScoreOf data) := rfl
    rw [hs, hval]
    exact jsRoundScaled_bounds ⟨n, by omega⟩
  · rw [breakdown_title_eq]
    rcases claimTitleQuality_cases data.title with h | h <;> rw [h] <;> norm_num
  · rw [breakdown_duration_eq]
    rcases claimDurationQuality_cases data.duration with h | h | h <;> rw [h] <;>
      norm_num [Rat.divInt_eq_div]
  · rw [breakdown_achievements_eq]
    rcases claimAchievementsQuality_cases data.achievements with h | h | h <;>
      rw [h] <;> norm_num [Rat.divInt_eq_div]
  · rw [breakdown_technologies_eq]
    rcases claimTechnologiesQuality_cases data.technologies with h | h | h <;>
      rw [h] <;> norm_num [Rat.divInt_eq_div]
  · rw [breakdown_learnings_eq]
    rcases amendedLearningsQuality_cases data.learnings with h | h | h <;>
      rw [h] <;> norm_num [Rat.divInt_eq_div]
  · rw [breakdown_project_eq]
    rcases claimProjectQuality_cases data.project with h | h <;> rw [h] <;> norm_num
  · rw [breakdown_reflections_eq]
    rcases claimReflectionsQuality_cases data.reflections with h | h <;> rw [h] <;>
      norm_num

theorem insertByScore_perm (x : SearchResult) (l : List SearchResult) :
    (insertByScore x l).Perm (x :: l) := by
  induction l with
  | nil => exact List.Perm.refl _
  | cons y rest ih =>
      unfold insertByScore
      by_cases h : y.score < x.score
      · rw [if_pos h]
      · rw [if_neg h]
        exact (ih.cons y).trans (List.Perm.swap x y rest)

theorem sortByScoreDesc_perm (l : List SearchResult) :
    (sortByScoreDesc l).Perm l := by
  induction l with
  | nil => exact List.Perm.refl _
  | cons a l ih =>
      have : sortByScoreDesc (a :: l) = insertByScore a (sortByScoreDesc l) := rfl
      rw [this]
      exact (insertByScore_perm a (sortByScoreDesc l)).trans (ih.cons a)

theorem insertByScore_sorted (x : SearchResult) (l : List SearchResult)
    (h : l.Pairwise (fun a b => b.score ≤ a.score)) :
    (insertByScore x l).Pairwise (fun a b => b.score ≤ a.score) := by
  induction l with
  | nil => simp [insertByScore]
  | cons y rest ih =>
      rw [List.pairwise_cons] at h
      obtain ⟨hy, hrest⟩ := h
      unfold insertByScore
      by_cases hc : y.score < x.score
      · rw [if_pos hc]
        refine List.pairwise_cons.mpr ⟨?_, List.pairwise_cons.mpr ⟨hy, hrest⟩⟩
        intro z hz
        rcases List.mem_cons.mp hz with rfl | hz
        · exact le_of_lt hc
        · exact (hy z hz).trans (le_of_lt hc)
      · rw [if_neg hc]
        refine List.pairwise_cons.mpr ⟨?_, ih hrest⟩
        intro z hz
        have hz' : z ∈ x :: rest := (insertByScore_perm x rest).mem_iff.mp hz
        rcases List.mem_cons.mp hz' with rfl | hz'
        · exact le_of_not_lt hc
        · exact hy z hz'

theorem sortByScoreDesc_sorted (l : List SearchResult) :
    (sortByScoreDesc l).Pairwise (fun a b => b.score ≤ a.score) := by
  induction l with
  | nil => simp [sortByScoreDesc]
  | cons a l ih => exact insertByScore_sorted a (sortByScoreDesc l) ih

theorem mem_searchResultsRaw (exps : List ExperienceDir) (pq : ExperienceQuery)
    (r : SearchResult) (hr : r ∈ searchResultsRaw exps pq) :
    r.score = scoreMatch r.experience pq ∧ Rat.divInt 3 10 < r.score ∧
      r.experience ∈ exps := by
  unfold searchResultsRaw at hr
  obtain ⟨e, he, hfe⟩ := List.mem_filterMap.mp hr
  by_cases hc : Rat.divInt 3 10 < scoreMatch e pq
  · rw [if_pos hc] at hfe
    obtain rfl := Option.some_injective _ hfe
    exact ⟨rfl, hc, he⟩
  · rw [if_neg hc] at hfe
    exact absurd hfe (by simp)

theorem scoreMatch_pdate (e : ExperienceDir) (qq : ExperienceQuery)
    (h : qq.qtype = QueryType.pdate) :
    (scoreMatch e qq = Rat.divInt 8 10 ↔
      (some e.year = qq.year ∧ natOptTruthy qq.month ∧ some e.month = qq.month))
    ∧ (scoreMatch e qq = Rat.divInt 6 10 ↔
        (some e.year = qq.year ∧ ¬ natOptTruthy qq.month))
    ∧ (scoreMatch e qq = Rat.divInt 8 10 ∨ scoreMatch e qq = Rat.divInt 6 10 ∨
        scoreMatch e qq = 0) := by
  have h86 : (Rat.divInt 8 10 : ℚ) ≠ Rat.divInt 6 10 := by decide
  have h80 : (Rat.divInt 8 10 : ℚ) ≠ 0 := by decide
  have h60 : (Rat.divInt 6 10 : ℚ) ≠ 0 := by decide
  obtain ⟨qs, qt, qy, qm, qd, qk⟩ := qq
  simp only at h
  subst h
  by_cases hy : some e.year = qy
  · by_cases hm : natOptTruthy qm = true
    · by_cases hmm : some e.month = qm
      · simp [scoreMatch, hy, hm, hmm, h86]
      · simp [scoreMatch, hy, hm, hmm, h80.symm, h60.symm]
    · simp [scoreMatch, hy, hm, h86.symm, h60]
  · simp [scoreMatch, hy, h80.symm, h60.symm]

/-- Claim C5, amended. For every experience list and query string, `search`
keeps exactly the experiences scoring strictly above the 3/10 threshold
under the parsed query, each result carrying its `scoreMatch` score, and
returns them sorted by score descending; on a partial-date query the score
is 8/10 exactly when the year matches and a truthy month component matches,
6/10 exactly when the year matches and the month component is absent or
falsy (the claim's "only a year is given" misses the falsy `"00"` month),
and 0 in every other case; and on the four fixed experiences the searches
`"2024-06"` and `"2024"` return exactly 2 and 3 results. -/
theorem C5_search (exps : List ExperienceDir) (q : JStr) :
    ((search exps q).Perm (searchResultsRaw exps (parseQuery q))
      ∧ (search exps q).Pairwise (fun a b => b.score ≤ a.score)
      ∧ ∀ r ∈ search exps q,
          r.score = scoreMatch r.experience (parseQuery q) ∧
            Rat.divInt 3 10 < r.score ∧ r.experience ∈ exps)
    ∧ (∀ e : ExperienceDir, ∀ qq : ExperienceQuery, qq.qtype = QueryType.pdate →
        (scoreMatch e qq = Rat.divInt 8 10 ↔
          (some e.year = qq.year ∧ natOptTruthy qq.month ∧ some e.month = qq.month))
        ∧ (scoreMatch e qq = Rat.divInt 6 10 ↔
            (some e.year = qq.year ∧ ¬ natOptTruthy qq.month))
        ∧ (scoreMatch e qq = Rat.divInt 8 10 ∨ scoreMatch e qq = Rat.divInt 6 10 ∨
            scoreMatch e qq = 0))
    ∧ (search locExperiences "2024-06".data).length = 2
    ∧ (search locExperiences "2024".data).length = 3 := by
  refine ⟨⟨sortByScoreDesc_perm _, sortByScoreDesc_sorted _, ?_⟩,
    fun e qq h => scoreMatch_pdate e qq h, by decide, by decide⟩
  intro r hr
  exact mem_searchResultsRaw exps (parseQuery q) r
    ((sortByScoreDesc_perm _).mem_iff.mp hr)

/-- Claim C5, counterexample to the claim as written. The query
`"2024-00"` carries a month component, `00`, which matches no experience
month, so the claim's partial-date rule assigns score 0 to every
experience and `search` should return nothing; but `Number("00")` is the
falsy 0, the code takes the year-only branch, and the January experience
comes back with score 6/10. -/
theorem C5_cex :
    (parseQuery "2024-00".data).qtype = QueryType.pdate
    ∧ (parseQuery "2024-00".data).month = some 0
    ∧ locJanuary.month ≠ 0
    ∧ search [locJanuary] "2024-00".data =
        [⟨locJanuary, Rat.divInt 6 10, "Partial date match: 2024-00".data⟩] := by
  refine ⟨by decide, by decide, by decide, by decide⟩

/-- Claim C5, witness. The amended theorem applied at the fixed experience
list and the query `"2024-06"`, and the partial-date clause applied to the
January experience with a year-only query. -/
theorem C5_witness :
    (search locExperiences "2024-06".data).length = 2
    ∧ scoreMatch locJanuary
        { query := "2024".data, qtype := QueryType.pdate, year := some 2024 } =
          Rat.divInt 6 10 := by
  obtain ⟨-, hpd, hlen2, -⟩ := C5_search locExperiences "2024-06".data
  refine ⟨hlen2, ?_⟩
  exact (hpd locJanuary
    { query := "2024".data, qtype := QueryType.pdate, year := some 2024 }
    rfl).2.1.mpr ⟨by decide, by decide⟩

theorem bestPatternFold_step (content : JStr) (acc : ℚ × JStr) (p : JsRegex)
    (rest : List JsRegex) :
    bestPatternFold content acc (p :: rest) =
      bestPatternFold content
        (if testR p content then
          (if acc.1 < Rat.divInt 7 10 then (Rat.divInt 7 10, extractEvidence content p)
           else acc)
        else acc) rest := rfl

theorem bestPatternFold_of_all_fail (content : JStr) (pats : List JsRegex)
    (acc : ℚ × JStr) (h : ∀ p ∈ pats, testR p content = false) :
    bestPatternFold content acc pats = acc := by
  induction pats generalizing acc with
  | nil => rfl
  | cons p rest ih =>
      rw [bestPatternFold_step, if_neg (by simp [h p (List.mem_cons_self p rest)])]
      exact ih acc (fun q hq => h q (List.mem_cons_of_mem p hq))

theorem bestPatternFold_stays (content : JStr) (pats : List JsRegex)
    (acc : ℚ × JStr) (h : acc.1 = Rat.divInt 7 10) :
    bestPatternFold content acc pats = acc := by
  induction pats with
  | nil => rfl
  | cons p rest ih =>
      rw [bestPatternFold_step]
      by_cases ht : testR p content = true
      · rw [if_pos ht, if_neg (by rw [h]; exact lt_irrefl _)]
        exact ih
      · rw [if_neg ht]
        exact ih

theorem bestPatternFold_hit (content : JStr) (pats : List JsRegex)
    (h : pats.any (fun p => testR p content) = true) :
    (bestPatternFold content ((0 : ℚ), ([] : JStr)) pats).1 = Rat.divInt 7 10 := by
  induction pats with
  | nil => simp at h
  | cons p rest ih =>
      by_cases ht : testR p content = true
      · rw [bestPatternFold_step, if_pos ht, if_pos (by decide)]
        rw [bestPatternFold_stays content rest _ rfl]
      · rw [bestPatternFold_step, if_neg ht]
        apply ih
        simpa [List.any_cons, ht] using h

/-- Claim C6. `detectField` yields confidence 9/10 with the (stringified,
50-character-truncated) frontmatter value as evidence whenever some known
alias of the field carries a present non-empty frontmatter value; with no
such alias it yields confidence 7/10 exactly when some body pattern of the
field matches, and no detection otherwise. Consequently, on the fixed
Korean draft body with frontmatter `company: TechCorp`, `analyzeDraft`
reports duration (7/10, body), project (9/10, frontmatter) and
technologies (7/10, body) present, reports achievements, learnings and
reflections missing, and is not sufficient. -/
theorem C6_detectField (field content : JStr) (fm : Frontmatter) :
    ((∀ v, fmFirstPresent field fm = some v →
        detectField field content fm =
          some ⟨field, Rat.divInt 9 10,
            (match v with | Json.str s => s | v2 => jsonStringify v2).take 50⟩)
      ∧ (fmFirstPresent field fm = none →
          (((fieldPatternsOf field).any (fun p => testR p content) = true →
              ∃ ev, detectField field content fm =
                some ⟨field, Rat.divInt 7 10, ev⟩)
            ∧ ((fieldPatternsOf field).any (fun p => testR p content) = false →
                detectField field content fm = none))))
    ∧ (analyzeDraft c6Body c6Frontmatter).presentFields.map
        (fun d => (d.field, d.confidence)) =
        [("duration".data, Rat.divInt 7 10), ("project".data, Rat.divInt 9 10),
         ("technologies".data, Rat.divInt 7 10)]
    ∧ (analyzeDraft c6Body c6Frontmatter).missingFields =
        ["achievements".data, "learnings".data, "reflections".data]
    ∧ (analyzeDraft c6Body c6Frontmatter).isSufficient = false := by
  refine ⟨⟨?_, ?_⟩, by decide, by decide, by decide⟩
  · intro v hv
    simp only [detectField, hv]
  · intro h0
    constructor
    · intro hany
      simp only [detectField, h0]
      cases hf : (fieldPatterns.find? (fun p => p.1 = field)).map Prod.snd with
      | none =>
          exfalso
          have hempty : fieldPatternsOf field = [] := by
            unfold fieldPatternsOf
            rw [hf]
            rfl
          rw [hempty] at hany
          simp at hany
      | some pats =>
          have hpeq : fieldPatternsOf field = pats := by
            unfold fieldPatternsOf
            rw [hf]
            rfl
          rw [hpeq] at hany
          have hb := bestPatternFold_hit content pats hany
          refine ⟨(bestPatternFold content ((0 : ℚ), ([] : JStr)) pats).2, ?_⟩
          show (if confidenceThreshold ≤
                  (bestPatternFold content ((0 : ℚ), ([] : JStr)) pats).1 then
              some (FieldDetection.mk field
                (bestPatternFold content ((0 : ℚ), ([] : JStr)) pats).1
                (bestPatternFold content ((0 : ℚ), ([] : JStr)) pats).2)
            else none) =
            some (FieldDetection.mk field (Rat.divInt 7 10)
              (bestPatternFold content ((0 : ℚ), ([] : JStr)) pats).2)
          rw [hb, if_pos (by decide)]
    · intro hnone
      simp only [detectField, h0]
      cases hf : (fieldPatterns.find? (fun p => p.1 = field)).map Prod.snd with
      | none => rfl
      | some pats =>
          have hpeq : fieldPatternsOf field = pats := by
            unfold fieldPatternsOf
            rw [hf]
            rfl
          rw [hpeq] at hnone
          have hall : ∀ p ∈ pats, testR p content = false := by
            intro p hp
            by_contra hne
            have hpt : testR p content = true := by
              revert hne
              cases testR p content <;> simp
            rw [List.any_eq_false] at hnone
            exact hnone p hp hpt
          show (if confidenceThreshold ≤
                  (bestPatternFold content ((0 : ℚ), ([] : JStr)) pats).1 then
              some (FieldDetection.mk field
                (bestPatternFold content ((0 : ℚ), ([] : JStr)) pats).1
                (bestPatternFold content ((0 : ℚ), ([] : JStr)) pats).2)
            else none) = none
          rw [bestPatternFold_of_all_fail content pats _ hall, if_neg (by decide)]

/-- Claim C6, witness. The characterization applied to the `project` field
on the fixed draft: the `company` alias carries `TechCorp`, so the
detection is the frontmatter one with confidence 9/10. -/
theorem C6_witness :
    detectField "project".data c6Body c6Frontmatter =
      some ⟨"project".data, Rat.divInt 9 10, "TechCorp".data⟩ := by
  have h := (C6_detectField "project".data c6Body c6Frontmatter).1.1
    (Json.str "TechCorp".data) rfl
  rw [h]
  decide

theorem repoInv_empty : repoInv [] := by
  intro dir f h
  simp [storeGet] at h

theorem getVersionFile_congr (st st2 : ExpStore) (dir : JStr)
    (h : storeGet st2 dir = storeGet st dir) (v : VersionType) :
    getVersionFile st2 dir v = getVersionFile st dir v := by
  unfold getVersionFile
  rw [h]

theorem createExperience_fst (st : ExpStore) (y m d : Nat) (slug : JStr)
    (content : ExperienceContent) :
    (createExperience st y m d slug content).1 = st ∨
    (∃ dirName c, storeGet st dirName = none ∧
      (createExperience st y m d slug content).1 =
        storeSet st dirName { draft := some c }) := by
  simp only [createExperience]
  split_ifs with h1 h2
  · left; rfl
  · left; rfl
  · right
    refine ⟨fmtDate y m d ++ '-' :: slug, _, ?_, rfl⟩
    rw [← Option.not_isSome_iff_eq_none]
    simpa using h2

theorem addRefinedVersion_fst (st : ExpStore) (dir c : JStr) :
    (addRefinedVersion st dir c).1 = st ∨
    (∃ files, storeGet st dir = some files ∧ files.refined = none ∧
      (addRefinedVersion st dir c).1 =
        storeSet st dir { files with refined := some c }) := by
  unfold addRefinedVersion
  cases hget : storeGet st dir with
  | none => left; rfl
  | some files =>
      by_cases href : files.refined.isSome
      · left; simp [href]
      · right
        exact ⟨files, rfl, Option.not_isSome_iff_eq_none.mp href, by simp [href]⟩

theorem addArchivedVersion_fst (st : ExpStore) (dir c : JStr) :
    (addArchivedVersion st dir c).1 = st ∨
    (∃ files, storeGet st dir = some files ∧ files.refined.isSome = true ∧
      files.archived = none ∧
      (addArchivedVersion st dir c).1 =
        storeSet st dir { files with archived := some c }) := by
  unfold addArchivedVersion
  cases hget : storeGet st dir with
  | none => left; rfl
  | some files =>
      by_cases href : files.refined.isNone
      · left; simp [href]
      · by_cases harch : files.archived.isSome
        · left; simp [href, harch]
        · right
          refine ⟨files, rfl, ?_, Option.not_isSome_iff_eq_none.mp harch,
            by simp [href, harch]⟩
          exact Option.isSome_iff_ne_none.mpr
            (by simpa [Option.isNone_iff_eq_none] using href)

theorem repoInv_new_dir (st : ExpStore) (dirName c : JStr)
    (hnone : storeGet st dirName = none) (hinv : repoInv st) :
    repoInv (storeSet st dirName { draft := some c }) ∧
      preservesFiles st (storeSet st dirName { draft := some c }) := by
  constructor
  · intro dir f hget
    by_cases hd : dir = dirName
    · subst hd
      rw [storeGet_storeSet_self] at hget
      obtain rfl := Option.some_injective _ hget.symm
      exact ⟨rfl, by intro h; simp at h⟩
    · rw [storeGet_storeSet_other st dirName dir _ hd] at hget
      exact hinv dir f hget
  · intro dir v ct hv
    by_cases hd : dir = dirName
    · subst hd
      unfold getVersionFile at hv
      rw [hnone] at hv
      simp at hv
    · rw [getVersionFile_congr st _ dir (storeGet_storeSet_other st dirName dir _ hd) v]
      exact hv

theorem repoInv_set_refined (st : ExpStore) (dir c : JStr) (files : ExpFiles)
    (hget : storeGet st dir = some files) (href : files.refined = none)
    (hinv : repoInv st) :
    repoInv (storeSet st dir { files with refined := some c }) ∧
      preservesFiles st (storeSet st dir { files with refined := some c }) := by
  constructor
  · intro dir2 f hget2
    by_cases hd : dir2 = dir
    · subst hd
      rw [storeGet_storeSet_self] at hget2
      obtain rfl := Option.some_injective _ hget2.symm
      refine ⟨(hinv dir2 files hget).1, ?_⟩
      intro _
      rfl
    · rw [storeGet_storeSet_other st dir dir2 _ hd] at hget2
      exact hinv dir2 f hget2
  · intro dir2 v ct hv
    by_cases hd : dir2 = dir
    · subst hd
      unfold getVersionFile at hv ⊢
      rw [hget] at hv
      rw [storeGet_storeSet_self]
      simp only [Option.some_bind] at hv ⊢
      cases v with
      | draft => exact hv
      | refined => rw [href] at hv; exact absurd hv (by simp)
      | archived => exact hv
    · rw [getVersionFile_congr st _ dir2 (storeGet_storeSet_other st dir dir2 _ hd) v]
      exact hv

theorem repoInv_set_archived (st : ExpStore) (dir c : JStr) (files : ExpFiles)
    (hget : storeGet st dir = some files) (href : files.refined.isSome = true)
    (harch : files.archived = none) (hinv : repoInv st) :
    repoInv (storeSet st dir { files with archived := some c }) ∧
      preservesFiles st (storeSet st dir { files with archived := some c }) := by
  constructor
  · intro dir2 f hget2
    by_cases hd : dir2 = dir
    · subst hd
      rw [storeGet_storeSet_self] at hget2
      obtain rfl := Option.some_injective _ hget2.symm
      exact ⟨(hinv dir2 files hget).1, fun _ => href⟩
    · rw [storeGet_storeSet_other st dir dir2 _ hd] at hget2
      exact hinv dir2 f hget2
  · intro dir2 v ct hv
    by_cases hd : dir2 = dir
    · subst hd
      unfold getVersionFile at hv ⊢
      rw [hget] at hv
      rw [storeGet_storeSet_self]
      simp only [Option.some_bind] at hv ⊢
      cases v with
      | draft => exact hv
      | refined => exact hv
      | archived => rw [harch] at hv; exact absurd hv (by simp)
    · rw [getVersionFile_congr st _ dir2 (storeGet_storeSet_other st dir dir2 _ hd) v]
      exact hv

theorem repoStep_inv (st st2 : ExpStore) (hstep : RepoStep st st2)
    (hinv : repoInv st) : repoInv st2 ∧ preservesFiles st st2 := by
  cases hstep with
  | create y m d slug content =>
      rcases createExperience_fst st y m d slug content with h | ⟨dn, c, hnone, heq⟩
      · rw [h]; exact ⟨hinv, fun dir v ct hv => hv⟩
      · rw [heq]; exact repoInv_new_dir st dn c hnone hinv
  | refine dir c =>
      rcases addRefinedVersion_fst st dir c with h | ⟨files, hget, href, heq⟩
      · rw [h]; exact ⟨hinv, fun dir v ct hv => hv⟩
      · rw [heq]; exact repoInv_set_refined st dir c files hget href hinv
  | archiveOp dir c =>
      rcases addArchivedVersion_fst st dir c with h | ⟨files, hget, href, harch, heq⟩
      · rw [h]; exact ⟨hinv, fun dir v ct hv => hv⟩
      · rw [heq]; exact repoInv_set_archived st dir c files hget href harch hinv

theorem reachable_repoInv (st : ExpStore)
    (h : Relation.ReflTransGen RepoStep [] st) : repoInv st := by
  induction h with
  | refl => exact repoInv_empty
  | tail _ hstep ih => exact (repoStep_inv _ _ hstep ih).1

/-- Claim C2, amended. Restricted to the repository operations
(`createExperience`, `addRefinedVersion`, `addArchivedVersion`), the
ordering invariant does hold: every single step preserves the repository
invariant and never changes or removes an existing version file, and every
store reachable from the empty store has strictly ordered versions
(`refined` only with `draft`, `archived` only with `refined`). The
Migration Engine's convert step, which the claim also covers, breaks the
invariant (see the counterexample). -/
theorem C2_version_ordering (st st2 : ExpStore) :
    (repoInv st → RepoStep st st2 → repoInv st2 ∧ preservesFiles st st2)
    ∧ (Relation.ReflTransGen RepoStep [] st → orderedVersions st) := by
  constructor
  · intro hinv hstep
    exact repoStep_inv st st2 hstep hinv
  · intro hreach
    intro dir f hget
    have h := reachable_repoInv st hreach dir f hget
    exact ⟨fun _ => h.1, h.2⟩

/-- Claim C2, counterexample to the claim as written. Migrating a legacy
layout whose only file sits in the in-progress bucket produces an
experience directory with a `refined.md` and no `draft.md`: the convert
step does not enforce the ordering invariant. -/
theorem C2_cex :
    storeGet (migrate id false legacyOnlyInProgress).1.experiences
        "2024-06-15-x".data = some { refined := some "refined stuff".data }
    ∧ ¬ orderedVersions (migrate id false legacyOnlyInProgress).1.experiences := by
  have h : storeGet (migrate id false legacyOnlyInProgress).1.experiences
      "2024-06-15-x".data = some { refined := some "refined stuff".data } := by decide
  refine ⟨h, ?_⟩
  intro hord
  have hdraft := (hord _ _ h).1 (by decide)
  simp at hdraft

/-- Claim C2, witness. The amended theorem applied to the one-step
reachable store created by a single `createExperience` call on the empty
store. -/
theorem C2_witness :
    orderedVersions (createExperience [] 2024 6 15 "react".data
      { title := "T".data, company := "C".data, role := "R".data }).1 :=
  (C2_version_ordering (createExperience [] 2024 6 15 "react".data
      { title := "T".data, company := "C".data, role := "R".data }).1 []).2
    (Relation.ReflTransGen.tail Relation.ReflTransGen.refl
      (RepoStep.create [] 2024 6 15 "react".data
        { title := "T".data, company := "C".data, role := "R".data }))

theorem readLegacyLD_of_mem (ld : LegacyDirs) (b : Bucket) (fs : List (JStr × JStr))
    (hb : bucketFiles ld b = some fs) (filename : JStr)
    (hf : filename ∈ fs.map Prod.fst) :
    ∃ c, readLegacyLD ld (b, filename) = some c := by
  obtain ⟨pair, hp, hpe⟩ := List.mem_map.mp hf
  have hs : (fs.find? (fun p => p.1 = filename)).isSome :=
    List.find?_isSome.mpr ⟨pair, hp, by simp [hpe]⟩
  obtain ⟨q, hq⟩ := Option.isSome_iff_exists.mp hs
  refine ⟨q.2, ?_⟩
  show (bucketFiles ld b).bind
      (fun fs => (fs.find? (fun p => p.1 = filename)).map Prod.snd) = some q.2
  rw [hb]
  simp only [Option.some_bind]
  rw [hq]
  rfl

theorem scanBucket_mem (slugFn : JStr → JStr) (ld : LegacyDirs) (b : Bucket)
    (sf : ScannedFile) (h : sf ∈ scanBucket slugFn ld b) :
    ∃ c, readLegacyLD ld (sf.source, sf.filename) = some c := by
  unfold scanBucket at h
  cases hb : bucketFiles ld b with
  | none => rw [hb] at h; simp at h
  | some fs =>
      rw [hb] at h
      obtain ⟨filename, hmem, rfl⟩ := List.mem_map.mp h
      have hf : filename ∈ fs.map Prod.fst := (List.mem_filter.mp hmem).1
      exact readLegacyLD_of_mem ld b fs hb filename hf

theorem scanPhase_readable (slugFn : JStr → JStr) (st : MigState) :
    ∀ sf ∈ scanPhase slugFn st,
      ∃ c, readLegacyLD st.legacy (sf.source, sf.filename) = some c := by
  intro sf hsf
  unfold scanPhase at hsf
  rcases List.mem_append.mp hsf with h12 | h3
  · rcases List.mem_append.mp h12 with h1 | h2
    · exact scanBucket_mem slugFn st.legacy .drafts sf h1
    · exact scanBucket_mem slugFn st.legacy .inProg sf h2
  · exact scanBucket_mem slugFn st.legacy .archiveB sf h3

theorem groupSlot_set_same (g : VersionGroup) (b : Bucket) (f : ScannedFile) :
    groupSlot (setGroupSlot g b f) b = some f := by
  cases b <;> rfl

theorem groupSlot_set_other (g : VersionGroup) (b b2 : Bucket) (f : ScannedFile)
    (hne : b2 ≠ b) : groupSlot (setGroupSlot g b f) b2 = groupSlot g b2 := by
  cases b <;> cases b2 <;> simp_all [setGroupSlot, groupSlot]

theorem groupSlot_empty (b : Bucket) : groupSlot {} b = none := by
  cases b <;> rfl

theorem groupsGet_mem (groups : List (JStr × VersionGroup)) (key : JStr)
    (g : VersionGroup) (h : groupsGet groups key = some g) : (key, g) ∈ groups := by
  unfold groupsGet at h
  cases hf : groups.find? (fun p => p.1 = key) with
  | none => rw [hf] at h; simp at h
  | some p =>
      rw [hf] at h
      have h2 : p.2 = g := by simpa using h
      have hpk : p.1 = key := by simpa using List.find?_some hf
      have hmem := List.mem_of_find?_eq_some hf
      rw [← hpk, ← h2]
      exact hmem

theorem mem_groupsSet (groups : List (JStr × VersionGroup)) (key : JStr)
    (g : VersionGroup) (kg : JStr × VersionGroup) (h : kg ∈ groupsSet groups key g) :
    kg ∈ groups ∨ kg = (key, g) := by
  unfold groupsSet at h
  by_cases hf : (groups.find? (fun p => p.1 = key)).isSome
  · rw [if_pos hf] at h
    obtain ⟨p, hp, he⟩ := List.mem_map.mp h
    by_cases hpk : p.1 = key
    · right; rw [← he]; simp [hpk]
    · left
      rw [← he]
      simp only [hpk, if_false]
      exact hp
  · rw [if_neg hf] at h
    rcases List.mem_append.mp h with h | h
    · left; exact h
    · right; simpa using h

theorem groupStep_fst (acc : List (JStr × VersionGroup) × List MigConflict × List JStr)
    (file : ScannedFile) :
    (groupStep acc file).1 = acc.1 ∨
    ∃ key, (groupStep acc file).1 =
      groupsSet acc.1 key
        (setGroupSlot ((groupsGet acc.1 key).getD {}) file.source file) := by
  cases hd : file.date with
  | none =>
      left
      unfold groupStep
      rw [hd]
  | some date =>
      have hds : groupStep acc file =
          groupStepDated acc file
            (if file.slug ≠ [] then date ++ '-' :: file.slug else date) := by
        unfold groupStep
        rw [hd]
      rw [hds]
      unfold groupStepDated
      cases hgs : groupSlot
          ((groupsGet acc.1
            (if file.slug ≠ [] then date ++ '-' :: file.slug else date)).getD {})
          file.source with
      | some prev => left; rfl
      | none => right; exact ⟨_, rfl⟩

theorem grouping_slots (Q : ScannedFile → Prop) (files : List ScannedFile) :
    ∀ (acc : List (JStr × VersionGroup) × List MigConflict × List JStr),
      (∀ sf ∈ files, Q sf) →
      (∀ kg ∈ acc.1, ∀ b sf, groupSlot kg.2 b = some sf → Q sf) →
      ∀ kg ∈ (files.foldl groupStep acc).1, ∀ b sf,
        groupSlot kg.2 b = some sf → Q sf := by
  induction files with
  | nil => intro acc _ hacc; exact hacc
  | cons file rest ih =>
      intro acc hfiles hacc
      have hQf : Q file := hfiles file (List.mem_cons_self _ _)
      have hrest : ∀ sf ∈ rest, Q sf := fun sf h => hfiles sf (List.mem_cons_of_mem _ h)
      rw [List.foldl_cons]
      apply ih (groupStep acc file) hrest
      intro kg hkg b sf hslot
      rcases groupStep_fst acc file with h | ⟨key, h⟩
      · rw [h] at hkg
        exact hacc kg hkg b sf hslot
      · rw [h] at hkg
        rcases mem_groupsSet _ _ _ _ hkg with hin | hnew
        · exact hacc kg hin b sf hslot
        · rw [hnew] at hslot
          by_cases hbb : b = file.source
          · rw [hbb, groupSlot_set_same] at hslot
            obtain rfl := Option.some_injective _ hslot.symm
            exact hQf
          · rw [groupSlot_set_other _ _ _ _ hbb] at hslot
            cases hg : groupsGet acc.1 key with
            | none =>
                rw [hg] at hslot
                rw [show (Option.getD (none : Option VersionGroup) {}) = {} from rfl,
                  groupSlot_empty] at hslot
                exact absurd hslot (by simp)
            | some g0 =>
                rw [hg] at hslot
                exact hacc (key, g0) (groupsGet_mem _ _ _ hg) b sf hslot

theorem mem_createMappings (slugFn : JStr → JStr)
    (groups : List (JStr × VersionGroup)) (m : MigMapping)
    (h : m ∈ createMappings slugFn groups) :
    ∃ kg ∈ groups,
      m.srcDraft = kg.2.draft.map (fun f => (f.source, f.filename)) ∧
      m.srcRefined = kg.2.refined.map (fun f => (f.source, f.filename)) ∧
      m.srcArchived = kg.2.archiveV.map (fun f => (f.source, f.filename)) := by
  unfold createMappings at h
  obtain ⟨kg, hkg, he⟩ := List.mem_map.mp h
  exact ⟨kg, hkg, by rw [← he], by rw [← he], by rw [← he]⟩

theorem slot_goodSrc (ld : LegacyDirs) (slot : Option ScannedFile)
    (hq : ∀ sf, slot = some sf →
      ∃ c, readLegacyLD ld (sf.source, sf.filename) = some c) :
    goodSrc ld (slot.map (fun f => (f.source, f.filename))) := by
  intro p hp
  cases hs : slot with
  | none => rw [hs] at hp; simp at hp
  | some sf =>
      rw [hs] at hp
      have hp2 : (sf.source, sf.filename) = p := by simpa using hp
      rw [← hp2]
      exact hq sf hs

theorem mappings_goodSrc (slugFn : JStr → JStr) (st : MigState) (m : MigMapping)
    (hm : m ∈ createMappings slugFn (groupingPhase (scanPhase slugFn st)).1) :
    goodSrc st.legacy m.srcDraft ∧ goodSrc st.legacy m.srcRefined ∧
      goodSrc st.legacy m.srcArchived := by
  obtain ⟨kg, hkg, hd, hr, ha⟩ := mem_createMappings slugFn _ m hm
  have hslots := grouping_slots
    (fun sf => ∃ c, readLegacyLD st.legacy (sf.source, sf.filename) = some c)
    (scanPhase slugFn st) ([], [], []) (scanPhase_readable slugFn st)
    (by intro kg2 hkg2; simp at hkg2) kg hkg
  refine ⟨?_, ?_, ?_⟩
  · rw [hd]
    exact slot_goodSrc st.legacy kg.2.draft (fun sf hs => hslots .drafts sf hs)
  · rw [hr]
    exact slot_goodSrc st.legacy kg.2.refined (fun sf hs => hslots .inProg sf hs)
  · rw [ha]
    exact slot_goodSrc st.legacy kg.2.archiveV (fun sf hs => hslots .archiveB sf hs)

theorem convertStep_fold (dir : JStr) (ld : LegacyDirs)
    (slots : List (Option (Bucket × JStr) × VersionType)) :
    ∀ (acc : MigState × Except JStr ExpFiles) (sums0 : ExpFiles),
      acc.1.legacy = ld → acc.2 = .ok sums0 →
      (∀ s ∈ slots, goodSrc ld s.1) →
      (slots.foldl (convertStep dir) acc).1.legacy = ld ∧
      ∃ sums, (slots.foldl (convertStep dir) acc).2 = .ok sums := by
  induction slots with
  | nil => intro acc sums0 hleg hok _; exact ⟨hleg, sums0, hok⟩
  | cons s rest ih =>
      intro acc sums0 hleg hok hgood
      rw [List.foldl_cons]
      obtain ⟨osrc, vt⟩ := s
      have hstep : ∃ acc2, convertStep dir acc (osrc, vt) = acc2 ∧
          acc2.1.legacy = ld ∧ ∃ s1, acc2.2 = .ok s1 := by
        cases osrc with
        | none =>
            refine ⟨acc, ?_, hleg, sums0, hok⟩
            simp only [convertStep, hok]
        | some src =>
            obtain ⟨c, hc⟩ := hgood (some src, vt) (List.mem_cons_self _ _) src rfl
            have hread : readLegacyFile acc.1 src = some c := by
              unfold readLegacyFile
              rw [hleg]
              exact hc
            refine ⟨(writeVersionFile acc.1 dir vt c, .ok (setChecksum sums0 vt c)),
              ?_, hleg, _, rfl⟩
            simp only [convertStep, hok, hread]
      obtain ⟨acc2, heq, hleg2, s1, hok2⟩ := hstep
      rw [heq]
      exact ih acc2 s1 hleg2 hok2 (fun s hs => hgood s (List.mem_cons_of_mem _ hs))

theorem convertExperience_ok (st0 : MigState) (m : MigMapping)
    (hd : goodSrc st0.legacy m.srcDraft) (hr : goodSrc st0.legacy m.srcRefined)
    (ha : goodSrc st0.legacy m.srcArchived) :
    (convertExperience st0 m).1.legacy = st0.legacy ∧
    ∃ sums, (convertExperience st0 m).2 = .ok sums := by
  unfold convertExperience
  have hgood : ∀ s ∈ [(m.srcDraft, VersionType.draft),
      (m.srcRefined, VersionType.refined), (m.srcArchived, VersionType.archived)],
      goodSrc st0.legacy s.1 := by
    intro s hs
    simp only [List.mem_cons, List.not_mem_nil, or_false] at hs
    rcases hs with rfl | rfl | rfl
    · exact hd
    · exact hr
    · exact ha
  exact convertStep_fold m.experienceDir st0.legacy _ _ {} (by split <;> rfl) rfl hgood

theorem migStep_fold (manifest0 : ManifestM) (ld : LegacyDirs)
    (mappings : List MigMapping) :
    ∀ (acc : MigState × List MigMapping × Nat × List JStr),
      acc.1.legacy = ld →
      (∀ m ∈ mappings, goodSrc ld m.srcDraft ∧ goodSrc ld m.srcRefined ∧
        goodSrc ld m.srcArchived) →
      (mappings.foldl (migStep manifest0) acc).2.2.1 = acc.2.2.1 + mappings.length ∧
      (mappings.foldl (migStep manifest0) acc).1.legacy = ld := by
  induction mappings with
  | nil => intro acc hleg _; exact ⟨(Nat.add_zero _).symm, hleg⟩
  | cons m rest ih =>
      intro acc hleg hgood
      obtain ⟨hg1, hg2, hg3⟩ := hgood m (List.mem_cons_self _ _)
      rw [← hleg] at hg1 hg2 hg3
      obtain ⟨hcleg, sums, hcok⟩ := convertExperience_ok acc.1 m hg1 hg2 hg3
      rw [List.foldl_cons]
      have hstepeq : migStep manifest0 acc m =
          ({ (convertExperience acc.1 m).1 with manifest := some { manifest0 with
              phase := .converting,
              mappings := acc.2.1 ++ [{ m with status := .completed, checksums := some sums }],
              experiencesCreated := acc.2.2.1 + 1 } },
           acc.2.1 ++ [{ m with status := .completed, checksums := some sums }],
           acc.2.2.1 + 1, acc.2.2.2) := by
        unfold migStep
        rw [hcok]
      rw [hstepeq]
      have hnext := ih
        ({ (convertExperience acc.1 m).1 with manifest := some { manifest0 with
            phase := .converting,
            mappings := acc.2.1 ++ [{ m with status := .completed, checksums := some sums }],
            experiencesCreated := acc.2.2.1 + 1 } },
         acc.2.1 ++ [{ m with status := .completed, checksums := some sums }],
         acc.2.2.1 + 1, acc.2.2.2)
        (by rw [hleg] at hcleg; exact hcleg)
        (fun m2 hm2 => hgood m2 (List.mem_cons_of_mem _ hm2))
      obtain ⟨hcount, hl⟩ := hnext
      refine ⟨?_, hl⟩
      rw [hcount]
      simp only [List.length_cons]
      omega

/-- Claim C8. A dry-run `migrate` returns the whole state unchanged — no
experiences directory, no file writes, no legacy mutation, no manifest,
no backups — and its `experiencesCreated` count equals the one a real run
on the same state reports (every mapping the pipeline produces has
readable sources, so every conversion of the real run succeeds). -/
theorem C8_dry_run (slugFn : JStr → JStr) (st : MigState) :
    (migrate slugFn true st).1 = st
    ∧ (migrate slugFn true st).2.experiencesCreated =
        (migrate slugFn false st).2.experiencesCreated := by
  refine ⟨rfl, ?_⟩
  have hdry : (migrate slugFn true st).2.experiencesCreated =
      (createMappings slugFn (groupingPhase (scanPhase slugFn st)).1).length := rfl
  have hreal : (migrate slugFn false st).2.experiencesCreated =
      (createMappings slugFn (groupingPhase (scanPhase slugFn st)).1).length := by
    have hfold := migStep_fold
      { phase := .validating,
        mappings := createMappings slugFn (groupingPhase (scanPhase slugFn st)).1,
        experiencesCreated := 0, filesScanned := (scanPhase slugFn st).length,
        experiencesTotal :=
          (createMappings slugFn (groupingPhase (scanPhase slugFn st)).1).length,
        errors := [], dryRun := false }
      st.legacy
      (createMappings slugFn (groupingPhase (scanPhase slugFn st)).1)
      ({ st with
          manifest := some
            { phase := .validating,
              mappings := createMappings slugFn (groupingPhase (scanPhase slugFn st)).1,
              experiencesCreated := 0, filesScanned := (scanPhase slugFn st).length,
              experiencesTotal :=
                (createMappings slugFn (groupingPhase (scanPhase slugFn st)).1).length,
              errors := [], dryRun := false },
          experiencesDirCreated := true }, [], 0, [])
      rfl
      (fun m hm => mappings_goodSrc slugFn st m hm)
    have hcount := hfold.1
    rw [Nat.zero_add] at hcount
    exact hcount
  rw [hdry, hreal]

end Resumate
